import Mathlib

/-!
Verification of the services module (service catalog: categories, services,
variants, addons, packages) against its natural-language specification.

The Python source is shallowly embedded: Django model rows become Lean
structures, `Decimal` becomes `ℚ` (exact decimal arithmetic), querysets become
lists, and each application-service operation becomes a pure function from a
database state to `Except error (result × state)`.  Python truthiness of ids
(`if category_id:`) is embedded faithfully: `some 0` is falsy.
-/

namespace ServicesModule

/-- Embedding of models.ServicesConfig (singleton configuration row).
Defaults mirror the Django field defaults. -/
structure ServicesConfig where
  default_duration : Nat := 60
  default_buffer_time : Nat := 0
  default_tax_rate : ℚ := 21
  show_prices : Bool := true
  show_duration : Bool := true
  allow_online_booking : Bool := true
  include_tax_in_price : Bool := true
  currency : String := "EUR"
  price_decimal_places : Nat := 2
deriving DecidableEq

/-- Embedding of models.ServiceCategory rows (fields relevant to the
hierarchy and CRUD operations). -/
structure ServiceCategory where
  id : Nat
  name : String
  slug : String
  description : String := ""
  parent : Option Nat := none
  icon : String := ""
  color : String := ""
  order : Nat := 0
  is_active : Bool := true
deriving DecidableEq

/-- Embedding of models.Service rows (scalar fields; the addon
many-to-many set is carried as a list of addon ids). -/
structure Service where
  id : Nat
  name : String
  slug : String
  description : String := ""
  short_description : String := ""
  category : Option Nat := none
  pricing_type : String := "fixed"
  price : ℚ := 0
  min_price : Option ℚ := none
  max_price : Option ℚ := none
  cost : ℚ := 0
  tax_rate : Option ℚ := none
  duration_minutes : Nat := 60
  buffer_before : Nat := 0
  buffer_after : Nat := 0
  max_capacity : Nat := 1
  is_bookable : Bool := true
  requires_confirmation : Bool := false
  allow_online_booking : Bool := true
  order : Nat := 0
  is_active : Bool := true
  is_featured : Bool := false
  sku : Option String := none
  barcode : String := ""
  notes : String := ""
  icon : String := ""
  color : String := ""
  addons : List Nat := []
deriving DecidableEq

/-- Embedding of models.ServiceVariant rows (owned by a service via the
service id; identity within the table is positional). -/
structure ServiceVariant where
  service : Nat
  name : String
  description : String := ""
  price_adjustment : ℚ := 0
  duration_adjustment : ℤ := 0
  order : Nat := 0
  is_active : Bool := true
deriving DecidableEq

/-- Embedding of models.ServiceAddon rows. -/
structure ServiceAddon where
  id : Nat
  name : String
  description : String := ""
  price : ℚ := 0
  duration_minutes : Nat := 0
  is_active : Bool := true
deriving DecidableEq

/-- Embedding of models.ServicePackage rows. -/
structure ServicePackage where
  id : Nat
  name : String
  slug : String
  description : String := ""
  discount_type : String := "percentage"
  discount_value : ℚ := 0
  fixed_price : Option ℚ := none
  validity_days : Option Nat := none
  max_uses : Option Nat := none
  order : Nat := 0
  is_active : Bool := true
  is_featured : Bool := false
deriving DecidableEq

/-- Embedding of models.ServicePackageItem rows (through table). -/
structure ServicePackageItem where
  package : Nat
  service : Nat
  quantity : Nat := 1
  order : Nat := 0
deriving DecidableEq

/-- Whole database state visible to the services module. -/
structure DB where
  config : ServicesConfig := {}
  categories : List ServiceCategory := []
  services : List Service := []
  variants : List ServiceVariant := []
  addons : List ServiceAddon := []
  packages : List ServicePackage := []
  packageItems : List ServicePackageItem := []
  nextId : Nat := 1
deriving DecidableEq

/-! ### Pricing and duration derivation (models.Service properties) -/

/-- Service.effective_tax_rate: the service override if set, else the
configured default. -/
def Service.effective_tax_rate (cfg : ServicesConfig) (s : Service) : ℚ :=
  match s.tax_rate with
  | some r => r
  | none => cfg.default_tax_rate

/-- Service.price_with_tax: stored price if prices include tax, else
price plus price times rate over 100. -/
def Service.price_with_tax (cfg : ServicesConfig) (s : Service) : ℚ :=
  if cfg.include_tax_in_price then s.price
  else s.price + s.price * (s.effective_tax_rate cfg / 100)

/-- Service.price_without_tax: stored price if prices exclude tax, else
price divided by one plus rate over 100. -/
def Service.price_without_tax (cfg : ServicesConfig) (s : Service) : ℚ :=
  if ¬ cfg.include_tax_in_price then s.price
  else s.price / (1 + s.effective_tax_rate cfg / 100)

/-- Service.tax_amount: difference of the two derived prices. -/
def Service.tax_amount (cfg : ServicesConfig) (s : Service) : ℚ :=
  s.price_with_tax cfg - s.price_without_tax cfg

/-- Service.profit. -/
def Service.profit (cfg : ServicesConfig) (s : Service) : ℚ :=
  s.price_without_tax cfg - s.cost

/-- Service.total_duration. -/
def Service.total_duration (s : Service) : Nat :=
  s.buffer_before + s.duration_minutes + s.buffer_after

/-- ServiceVariant.final_price: base service price plus adjustment. -/
def ServiceVariant.final_price (s : Service) (v : ServiceVariant) : ℚ :=
  s.price + v.price_adjustment

/-- ServiceVariant.final_duration: base service duration plus adjustment. -/
def ServiceVariant.final_duration (s : Service) (v : ServiceVariant) : ℤ :=
  (s.duration_minutes : ℤ) + v.duration_adjustment

/-! ### Package price derivation (models.ServicePackage properties) -/

/-- Price of the service row with the given id (items always resolve in a
consistent database; 0 is the join-miss default, never hit in the claims). -/
def servicePriceById (services : List Service) (sid : Nat) : ℚ :=
  match services.find? (fun s => s.id == sid) with
  | some s => s.price
  | none => 0

/-- Duration of the service row with the given id. -/
def serviceDurationById (services : List Service) (sid : Nat) : Nat :=
  match services.find? (fun s => s.id == sid) with
  | some s => s.duration_minutes
  | none => 0

/-- Items belonging to a package. -/
def itemsOf (items : List ServicePackageItem) (pid : Nat) : List ServicePackageItem :=
  items.filter (fun it => it.package == pid)

/-- ServicePackage.original_price: sum of item service price times quantity. -/
def ServicePackage.original_price (services : List Service)
    (items : List ServicePackageItem) (p : ServicePackage) : ℚ :=
  (itemsOf items p.id).foldl
    (fun total it => total + servicePriceById services it.service * (it.quantity : ℚ)) 0

/-- ServicePackage.final_price: fixed price override if set, else the
discounted original price floored at 0. -/
def ServicePackage.final_price (services : List Service)
    (items : List ServicePackageItem) (p : ServicePackage) : ℚ :=
  match p.fixed_price with
  | some f => f
  | none =>
    let original := p.original_price services items
    let discount :=
      if p.discount_type == "percentage" then original * (p.discount_value / 100)
      else p.discount_value
    max 0 (original - discount)

/-- ServicePackage.savings. -/
def ServicePackage.savings (services : List Service)
    (items : List ServicePackageItem) (p : ServicePackage) : ℚ :=
  p.original_price services items - p.final_price services items

/-- ServicePackage.savings_percentage (0 when original price is 0). -/
def ServicePackage.savings_percentage (services : List Service)
    (items : List ServicePackageItem) (p : ServicePackage) : ℚ :=
  if p.original_price services items = 0 then 0
  else p.savings services items / p.original_price services items * 100

/-- ServicePackage.total_duration: sum of item service duration times quantity. -/
def ServicePackage.total_duration (services : List Service)
    (items : List ServicePackageItem) (p : ServicePackage) : Nat :=
  (itemsOf items p.id).foldl
    (fun total it => total + serviceDurationById services it.service * it.quantity) 0

/-! ### Slug generation (service_service.py, the collision loop)

The source builds candidate slugs by string formatting: the bare base slug
first, then base-1, base-2, … re-checking the taken set after every
increment.  The loop is embedded with explicit fuel; one unit of fuel per
taken slug plus one is enough, which is proved below via injectivity of the
decimal rendering of the counter. -/

/-- Candidate slug number k: the bare base for k = 0, else base-k
(mirroring the f-string in the source). -/
def slugCandidate (base : String) (k : Nat) : String :=
  if k = 0 then base else base ++ "-" ++ Nat.repr k

/-- The collision loop: while the current slug is taken, move to the next
numbered candidate and bump the counter. -/
def probeSlug (taken : List String) (base : String) :
    Nat → String → Nat → String
  | 0, slug, _ => slug
  | fuel + 1, slug, counter =>
    if slug ∈ taken then
      probeSlug taken base fuel (base ++ "-" ++ Nat.repr counter) (counter + 1)
    else slug

/-- Unique-slug generation as performed by every create/update operation:
start from the bare base with counter 1. -/
def generateUniqueSlug (taken : List String) (base : String) : String :=
  probeSlug taken base (taken.length + 1) base 1

/-- Decimal digit list of a natural number (most significant first); the
reference rendering that Nat.repr is proved to agree with. -/
def decDigits : Nat → List Char
  | n =>
    if h : n < 10 then [Nat.digitChar n]
    else
      have : n / 10 < n := Nat.div_lt_self (by omega) (by omega)
      decDigits (n / 10) ++ [Nat.digitChar (n % 10)]

/-- Numeric value of a digit character. -/
def digitVal (c : Char) : Nat := c.toNat - 48

/-- Left fold evaluating a decimal digit string back to a number. -/
def evalDigits (l : List Char) : Nat :=
  l.foldl (fun a c => 10 * a + digitVal c) 0

/-! ### Category hierarchy (models.ServiceCategory) -/

/-- Direct children of a category: the rows whose parent field holds its id
(the related-name children queryset). -/
def childrenOf (cats : List ServiceCategory) (c : ServiceCategory) :
    List ServiceCategory :=
  cats.filter (fun r => r.parent == some c.id)

/-- ServiceCategory.get_descendants, fuel-indexed: for each child, the child
followed by the child's own descendants (the source's append/extend loop).
The source recursion has no defensive bound; fuel models its call depth and
one level per database row is proved sufficient on acyclic data. -/
def getDescendantsF (cats : List ServiceCategory) :
    Nat → ServiceCategory → List ServiceCategory
  | 0, _ => []
  | fuel + 1, c =>
    (childrenOf cats c).flatMap (fun ch => ch :: getDescendantsF cats fuel ch)

/-- ServiceCategory.get_descendants with the canonical fuel. -/
def get_descendants (cats : List ServiceCategory) (c : ServiceCategory) :
    List ServiceCategory :=
  getDescendantsF cats cats.length c

/-- Parent id of the row with the given id, if any. -/
def parentOf (cats : List ServiceCategory) (i : Nat) : Option Nat :=
  match cats.find? (fun r => r.id == i) with
  | some r => r.parent
  | none => none

/-- k-fold parent iteration from an id. -/
def iterParent (cats : List ServiceCategory) : Nat → Nat → Option Nat
  | 0, i => some i
  | k + 1, i =>
    match parentOf cats i with
    | some p => iterParent cats k p
    | none => none

/-- The category graph is acyclic: no id reaches itself by a positive number
of parent steps (no category is its own ancestor). -/
def Acyclic (cats : List ServiceCategory) : Prop :=
  ∀ i k, 0 < k → iterParent cats k i ≠ some i

/-- Database invariant: primary keys are unique. -/
def NodupIds (cats : List ServiceCategory) : Prop :=
  (cats.map (fun r => r.id)).Nodup

/-! ### Application service layer (services/service_service.py)

Each operation is a pure function on the database state.  Errors are the
exact message strings of the source; an error return carries no state, which
models the fact that every validation in these paths runs before any write
(and transaction.atomic otherwise).  Keyword presence in a Python kwargs
dict is modelled by an outer Option on each patch field. -/

/-- An ASCII whitespace character (the characters str.strip removes). -/
def isSpaceChar (c : Char) : Bool :=
  c == ' ' || c == '\t' || c == '\n' || c == '\r'

/-- Python str.strip: drop leading and trailing whitespace. -/
def pyStrip (s : String) : String :=
  ⟨((s.data.dropWhile isSpaceChar).reverse.dropWhile isSpaceChar).reverse⟩

/-- Python truthiness of an optional Decimal (None and 0 are falsy). -/
def truthyQ (o : Option ℚ) : Bool :=
  match o with
  | some v => v != 0
  | none => false

/-- Falsy-empty name test: the source condition
(not name or not name.strip()). -/
def blankName (name : String) : Bool :=
  name == "" || pyStrip name == ""

/-- Arguments of create_service with the source's defaults. -/
structure CreateServiceArgs where
  name : String
  price : ℚ := 0
  duration_minutes : Nat := 60
  category_id : Option Nat := none
  description : String := ""
  short_description : String := ""
  pricing_type : String := "fixed"
  min_price : Option ℚ := none
  max_price : Option ℚ := none
  cost : ℚ := 0
  tax_rate : Option ℚ := none
  buffer_before : Nat := 0
  buffer_after : Nat := 0
  max_capacity : Nat := 1
  is_bookable : Bool := true
  requires_confirmation : Bool := false
  allow_online_booking : Bool := true
  is_featured : Bool := false
  sku : Option String := none
  barcode : String := ""
  notes : String := ""
  icon : String := ""
  color : String := ""
  order : Nat := 0
deriving DecidableEq

/-- Category-id resolution in create_service: a falsy id (absent or 0)
means no category; otherwise the id must resolve. -/
def resolveCategory (cats : List ServiceCategory) (cid? : Option Nat) :
    Except String (Option Nat) :=
  match cid? with
  | none => .ok none
  | some cid =>
    if cid = 0 then .ok none
    else
      match cats.find? (fun c => c.id == cid) with
      | some c => .ok (some c.id)
      | none => .error "Category not found"

/-- The variable-pricing range check (Decimal truthiness included: a zero
bound disables the check, as in the source). -/
def badPriceRange (pricing_type : String) (mn mx : Option ℚ) : Bool :=
  pricing_type == "variable" && truthyQ mn && truthyQ mx &&
    match mn, mx with
    | some a, some b => a > b
    | _, _ => false

/-- The sku normalization in create_service (sku if sku else None: empty
string is falsy). -/
def normalizeSku (sku : Option String) : Option String :=
  match sku with
  | some s => if s = "" then none else some s
  | none => none

/-- The default-duration substitution in create_service. -/
def applyDefaultDuration (cfg : ServicesConfig) (duration_minutes : Nat) : Nat :=
  if duration_minutes = 60 ∧ cfg.default_duration ≠ 60 then cfg.default_duration
  else duration_minutes

/-- ServiceService.create_service. -/
def create_service (slugify : String → String) (db : DB)
    (a : CreateServiceArgs) : Except String (Service × DB) :=
  if blankName a.name then .error "Service name is required"
  else
    let slug := generateUniqueSlug (db.services.map (fun s => s.slug)) (slugify a.name)
    match resolveCategory db.categories a.category_id with
    | .error e => .error e
    | .ok category =>
      if badPriceRange a.pricing_type a.min_price a.max_price then
        .error "Minimum price cannot be greater than maximum price"
      else
        let svc : Service :=
          { id := db.nextId
            name := pyStrip a.name
            slug := slug
            description := a.description
            short_description := a.short_description
            category := category
            pricing_type := a.pricing_type
            price := a.price
            min_price := a.min_price
            max_price := a.max_price
            cost := a.cost
            tax_rate := a.tax_rate
            duration_minutes := applyDefaultDuration db.config a.duration_minutes
            buffer_before := a.buffer_before
            buffer_after := a.buffer_after
            max_capacity := a.max_capacity
            is_bookable := a.is_bookable
            requires_confirmation := a.requires_confirmation
            allow_online_booking := a.allow_online_booking
            is_featured := a.is_featured
            sku := normalizeSku a.sku
            barcode := a.barcode
            notes := a.notes
            icon := a.icon
            color := a.color
            order := a.order }
        .ok (svc, { db with services := db.services ++ [svc], nextId := db.nextId + 1 })

/-- Patch for update_service: an outer some means the key was present in
kwargs. -/
structure ServicePatch where
  category_id : Option (Option Nat) := none
  name : Option String := none
  price : Option ℚ := none
  pricing_type : Option String := none
  min_price : Option (Option ℚ) := none
  max_price : Option (Option ℚ) := none
  duration_minutes : Option Nat := none
  is_featured : Option Bool := none
  barcode : Option String := none
  notes : Option String := none
  order : Option Nat := none
  is_active : Option Bool := none
deriving DecidableEq

/-- Category handling of update_service: absent key changes nothing, falsy
value clears the category, otherwise the id must resolve. -/
def resolvePatchCategory (cats : List ServiceCategory)
    (cid?? : Option (Option Nat)) (current : Option Nat) :
    Except String (Option Nat) :=
  match cid?? with
  | none => .ok current
  | some cid? =>
    match cid? with
    | none => .ok none
    | some cid =>
      if cid = 0 then .ok none
      else
        match cats.find? (fun c => c.id == cid) with
        | some c => .ok (some c.id)
        | none => .error "Category not found"

/-- ServiceService.update_service.  The name-blank check of create_service
has no counterpart here: a present name is applied as given. -/
def update_service (slugify : String → String) (db : DB) (svc : Service)
    (p : ServicePatch) : Except String DB :=
  match resolvePatchCategory db.categories p.category_id svc.category with
  | .error e => .error e
  | .ok newCategory =>
    let newSlug :=
      match p.name with
      | some n =>
        if n ≠ svc.name then
          generateUniqueSlug
            ((db.services.filter (fun s => s.id ≠ svc.id)).map (fun s => s.slug))
            (slugify n)
        else svc.slug
      | none => svc.slug
    let mn := p.min_price.getD svc.min_price
    let mx := p.max_price.getD svc.max_price
    let pt := p.pricing_type.getD svc.pricing_type
    if badPriceRange pt mn mx then
      .error "Minimum price cannot be greater than maximum price"
    else
      let svc' : Service :=
        { svc with
          category := newCategory
          name := p.name.getD svc.name
          slug := newSlug
          price := p.price.getD svc.price
          pricing_type := pt
          min_price := mn
          max_price := mx
          duration_minutes := p.duration_minutes.getD svc.duration_minutes
          is_featured := p.is_featured.getD svc.is_featured
          barcode := p.barcode.getD svc.barcode
          notes := p.notes.getD svc.notes
          order := p.order.getD svc.order
          is_active := p.is_active.getD svc.is_active }
      .ok { db with
            services := db.services.map (fun s => if s.id = svc.id then svc' else s) }

/-- ServiceService.duplicate_service: create a copy via create_service with
the listed arguments (featured reset, barcode reset; sku and order are not
passed and take the create_service defaults), then copy the variants and
re-attach the addon set. -/
def duplicate_service (slugify : String → String) (db : DB) (svc : Service)
    (new_name : Option String) : Except String (Service × DB) :=
  let name := new_name.getD (svc.name ++ " (Copy)")
  match create_service slugify db
      { name := name
        price := svc.price
        duration_minutes := svc.duration_minutes
        category_id := svc.category
        description := svc.description
        short_description := svc.short_description
        pricing_type := svc.pricing_type
        min_price := svc.min_price
        max_price := svc.max_price
        cost := svc.cost
        tax_rate := svc.tax_rate
        buffer_before := svc.buffer_before
        buffer_after := svc.buffer_after
        max_capacity := svc.max_capacity
        is_bookable := svc.is_bookable
        requires_confirmation := svc.requires_confirmation
        allow_online_booking := svc.allow_online_booking
        is_featured := false
        barcode := ""
        notes := svc.notes
        icon := svc.icon
        color := svc.color } with
  | .error e => .error e
  | .ok (created, db1) =>
    let copies :=
      (db1.variants.filter (fun v => v.service = svc.id)).map
        (fun v =>
          { service := created.id
            name := v.name
            description := v.description
            price_adjustment := v.price_adjustment
            duration_adjustment := v.duration_adjustment
            order := v.order
            is_active := v.is_active : ServiceVariant })
    let final := { created with addons := svc.addons }
    .ok (final,
      { db1 with
        variants := db1.variants ++ copies
        services := db1.services.map (fun s => if s.id = created.id then final else s) })

/-- ServiceService.create_category. -/
def create_category (slugify : String → String) (db : DB) (name : String)
    (parent_id : Option Nat := none) (description : String := "")
    (icon : String := "") (color : String := "") (order : Nat := 0) :
    Except String (ServiceCategory × DB) :=
  if blankName name then .error "Category name is required"
  else
    let slug := generateUniqueSlug (db.categories.map (fun c => c.slug)) (slugify name)
    let resolveParent : Except String (Option Nat) :=
      match parent_id with
      | none => .ok none
      | some pid =>
        if pid = 0 then .ok none
        else
          match db.categories.find? (fun c => c.id == pid) with
          | some parent => .ok (some parent.id)
          | none => .error "Parent category not found"
    match resolveParent with
    | .error e => .error e
    | .ok parent =>
      let cat : ServiceCategory :=
        { id := db.nextId
          name := pyStrip name
          slug := slug
          description := description
          parent := parent
          icon := icon
          color := color
          order := order }
      .ok (cat, { db with categories := db.categories ++ [cat], nextId := db.nextId + 1 })

/-- Patch for update_category. -/
structure CategoryPatch where
  parent_id : Option (Option Nat) := none
  name : Option String := none
  description : Option String := none
  icon : Option String := none
  color : Option String := none
  order : Option Nat := none
  is_active : Option Bool := none
deriving DecidableEq

/-- Parent handling of update_category: a truthy parent id must resolve and
must be neither the category itself nor one of its descendants (object
equality on Django models is primary-key equality). -/
def resolvePatchParent (cats : List ServiceCategory) (c : ServiceCategory)
    (pid?? : Option (Option Nat)) : Except String (Option Nat) :=
  match pid?? with
  | none => .ok c.parent
  | some pid? =>
    match pid? with
    | none => .ok none
    | some pid =>
      if pid = 0 then .ok none
      else
        match cats.find? (fun r => r.id == pid) with
        | none => .error "Parent category not found"
        | some parent =>
          if parent.id == c.id ||
              (get_descendants cats c).any (fun d => d.id == parent.id) then
            .error "Cannot set descendant as parent"
          else .ok (some parent.id)

/-- ServiceService.update_category. -/
def update_category (slugify : String → String) (db : DB)
    (c : ServiceCategory) (p : CategoryPatch) : Except String DB :=
  match resolvePatchParent db.categories c p.parent_id with
  | .error e => .error e
  | .ok newParent =>
    let newSlug :=
      match p.name with
      | some n =>
        if n ≠ c.name then
          generateUniqueSlug
            ((db.categories.filter (fun r => r.id ≠ c.id)).map (fun r => r.slug))
            (slugify n)
        else c.slug
      | none => c.slug
    let c' : ServiceCategory :=
      { c with
        parent := newParent
        name := p.name.getD c.name
        slug := newSlug
        description := p.description.getD c.description
        icon := p.icon.getD c.icon
        color := p.color.getD c.color
        order := p.order.getD c.order
        is_active := p.is_active.getD c.is_active }
    .ok { db with
          categories := db.categories.map (fun r => if r.id = c.id then c' else r) }

/-- ServiceService.delete_category.  With move_to_parent, services and
direct child categories are first repointed at the deleted category's
parent; the remaining delete cascades over any rows still parented to the
deleted row (Django on_delete semantics: CASCADE for child categories,
SET_NULL for services). -/
def delete_category (db : DB) (c : ServiceCategory) (move_to_parent : Bool := true) : DB :=
  let db1 :=
    if move_to_parent then
      { db with
        services := db.services.map
          (fun s => if s.category == some c.id then { s with category := c.parent } else s)
        categories := db.categories.map
          (fun r => if r.parent == some c.id then { r with parent := c.parent } else r) }
    else db
  let doomed := c.id :: (get_descendants db1.categories c).map (fun d => d.id)
  { db1 with
    categories := db1.categories.filter (fun r => ¬ r.id ∈ doomed)
    services := db1.services.map
      (fun s =>
        match s.category with
        | some cid => if cid ∈ doomed then { s with category := none } else s
        | none => s) }

/-- ServiceService.create_variant. -/
def create_variant (db : DB) (svc : Service) (name : String)
    (price_adjustment : ℚ := 0) (duration_adjustment : ℤ := 0)
    (description : String := "") (order : Nat := 0) :
    Except String (ServiceVariant × DB) :=
  if blankName name then .error "Variant name is required"
  else if (db.variants.filter (fun v => v.service = svc.id)).any
      (fun v => v.name == pyStrip name) then
    .error "A variant with this name already exists"
  else
    let v : ServiceVariant :=
      { service := svc.id
        name := pyStrip name
        description := description
        price_adjustment := price_adjustment
        duration_adjustment := duration_adjustment
        order := order }
    .ok (v, { db with variants := db.variants ++ [v] })

/-- ServiceService.create_addon. -/
def create_addon (db : DB) (name : String) (price : ℚ := 0)
    (duration_minutes : Nat := 0) (description : String := "") :
    Except String (ServiceAddon × DB) :=
  if blankName name then .error "Addon name is required"
  else
    let addon : ServiceAddon :=
      { id := db.nextId
        name := pyStrip name
        description := description
        price := price
        duration_minutes := duration_minutes }
    .ok (addon, { db with addons := db.addons ++ [addon], nextId := db.nextId + 1 })

/-- One requested package item (a service_items dict entry; quantity
defaults to 1 as with dict.get). -/
structure PackageItemArg where
  service_id : Nat
  quantity : Nat := 1
deriving DecidableEq

/-- The item-insertion loop of create_package and update_package: each
requested item whose service id resolves becomes a row (order is the
enumeration index); ids that do not resolve are silently skipped. -/
def buildPackageItems (services : List Service) (pid : Nat)
    (service_items : List PackageItemArg) : List ServicePackageItem :=
  (service_items.enum.filterMap
    (fun x =>
      match services.find? (fun s => s.id == x.2.service_id) with
      | some s => some { package := pid, service := s.id
                         quantity := x.2.quantity, order := x.1 : ServicePackageItem }
      | none => none))

/-- ServiceService.create_package. -/
def create_package (slugify : String → String) (db : DB) (name : String)
    (service_items : List PackageItemArg)
    (discount_type : String := "percentage") (discount_value : ℚ := 0)
    (fixed_price : Option ℚ := none) (description : String := "")
    (validity_days : Option Nat := none) (max_uses : Option Nat := none)
    (is_featured : Bool := false) (order : Nat := 0) :
    Except String (ServicePackage × DB) :=
  if blankName name then .error "Package name is required"
  else if service_items.isEmpty then .error "At least one service is required"
  else
    let slug := generateUniqueSlug (db.packages.map (fun p => p.slug)) (slugify name)
    let pkg : ServicePackage :=
      { id := db.nextId
        name := pyStrip name
        slug := slug
        description := description
        discount_type := discount_type
        discount_value := discount_value
        fixed_price := fixed_price
        validity_days := validity_days
        max_uses := max_uses
        is_featured := is_featured
        order := order }
    let newItems := buildPackageItems db.services pkg.id service_items
    .ok (pkg,
      { db with
        packages := db.packages ++ [pkg]
        packageItems := db.packageItems ++ newItems
        nextId := db.nextId + 1 })

/-- Patch for update_package. -/
structure PackagePatch where
  name : Option String := none
  discount_type : Option String := none
  discount_value : Option ℚ := none
  fixed_price : Option (Option ℚ) := none
  is_active : Option Bool := none
  is_featured : Option Bool := none
  order : Option Nat := none
deriving DecidableEq

/-- ServiceService.update_package: apply the patch (regenerating the slug on
a name change), then, when service_items is given, delete the package's
items and rebuild them with the same skip-on-missing loop. -/
def update_package (slugify : String → String) (db : DB) (pkg : ServicePackage)
    (service_items : Option (List PackageItemArg)) (p : PackagePatch) :
    Except String DB :=
  let newSlug :=
    match p.name with
    | some n =>
      if n ≠ pkg.name then
        generateUniqueSlug
          ((db.packages.filter (fun q => q.id ≠ pkg.id)).map (fun q => q.slug))
          (slugify n)
      else pkg.slug
    | none => pkg.slug
  let pkg' : ServicePackage :=
    { pkg with
      name := p.name.getD pkg.name
      slug := newSlug
      discount_type := p.discount_type.getD pkg.discount_type
      discount_value := p.discount_value.getD pkg.discount_value
      fixed_price := p.fixed_price.getD pkg.fixed_price
      is_active := p.is_active.getD pkg.is_active
      is_featured := p.is_featured.getD pkg.is_featured
      order := p.order.getD pkg.order }
  let db1 := { db with packages := db.packages.map (fun q => if q.id = pkg.id then pkg' else q) }
  match service_items with
  | none => .ok db1
  | some items =>
    let kept := db1.packageItems.filter (fun it => it.package ≠ pkg.id)
    .ok { db1 with packageItems := kept ++ buildPackageItems db1.services pkg.id items }

/-! ### Concrete inputs used by witnesses, examples and counterexamples -/

/-- Identity slugifier used to instantiate witnesses (django slugify is an
external collaborator; operations are parametric in it). -/
def idSlugify : String → String := fun s => s

/-- A plain service used by the pricing witnesses. -/
def exPriceService : Service :=
  { id := 1, name := "Cut", slug := "cut", price := 100 }

/-- Example services of the specification's package example. -/
def exSvc30 : Service := { id := 1, name := "A", slug := "a", price := 30 }

/-- Second example service (price 50, used with quantity 2). -/
def exSvc50 : Service := { id := 2, name := "B", slug := "b", price := 50 }

/-- Third example service (price 20). -/
def exSvc20 : Service := { id := 3, name := "C", slug := "c", price := 20 }

/-- Example package with a 15 percent discount. -/
def exPkg : ServicePackage :=
  { id := 10, name := "P", slug := "p", discount_type := "percentage"
    discount_value := 15 }

/-- Example package items: quantities 1, 2, 1. -/
def exItems : List ServicePackageItem :=
  [ { package := 10, service := 1, quantity := 1, order := 0 }
  , { package := 10, service := 2, quantity := 2, order := 1 }
  , { package := 10, service := 3, quantity := 1, order := 2 } ]

/-- Database for the duration witness: default duration configured to 45. -/
def exDurDB : DB := { config := { default_duration := 45 } }

/-- Arguments for the duration witness: a request for exactly 60 minutes. -/
def exDurArgs : CreateServiceArgs := { name := "Massage", duration_minutes := 60 }

/-- The service row the duration witness run produces. -/
def exDurSvc : Service :=
  { id := 1, name := "Massage", slug := "Massage", duration_minutes := 45 }

/-- Existing service whose update with a blank name goes through. -/
def exC7Svc : Service := { id := 1, name := "A", slug := "A" }

/-- Database holding only that service. -/
def exC7DB : DB := { services := [exC7Svc], nextId := 2 }

/-- Database for the package not-found counterexample: no services at all. -/
def exC8Pkg : ServicePackage := { id := 1, name := "P", slug := "P" }

/-- Source service of the duplication counterexample: sort order 5. -/
def exC5Svc : Service := { id := 1, name := "A", slug := "A", order := 5 }

/-- Database holding the duplication source. -/
def exC5DB : DB := { services := [exC5Svc], nextId := 2 }

/-- The copy the duplication counterexample produces (order reset to 0). -/
def exC5New : Service := { id := 2, name := "A (Copy)", slug := "A (Copy)" }

/-- Category deleted in the C6 witness. -/
def exC6Cat : ServiceCategory := { id := 1, name := "Hair", slug := "hair" }

/-- Direct child of the deleted category. -/
def exC6Child : ServiceCategory :=
  { id := 2, name := "Kids", slug := "kids", parent := some 1 }

/-- Service directly assigned to the deleted category. -/
def exC6Svc : Service := { id := 5, name := "Cut", slug := "cut", category := some 1 }

/-- Database of the C6 witness. -/
def exC6DB : DB :=
  { categories := [exC6Cat, exC6Child], services := [exC6Svc], nextId := 6 }

/-- Active parent category of the C9 counterexample. -/
def exC9Parent : ServiceCategory := { id := 1, name := "Hair", slug := "hair2" }

/-- Inactive child of the C9 counterexample. -/
def exC9Child : ServiceCategory :=
  { id := 2, name := "Retired", slug := "retired", parent := some 1,
    is_active := false }

/-- Category table of the C9 counterexample and witness. -/
def exC9Cats : List ServiceCategory := [exC9Parent, exC9Child]

/-- Category of the C3 witness (update rejecting itself as parent). -/
def exC3Cat : ServiceCategory := { id := 1, name := "X", slug := "x" }

/-- Database of the C3 witness. -/
def exC3DB : DB := { categories := [exC3Cat] }

/-! ## Theorems -/

/-! ### Decimal rendering of the slug counter

The source formats the collision counter with an f-string; its Lean
counterpart is Nat.repr.  Distinct counters render to distinct strings,
which bounds the number of loop iterations; this is proved by showing
Nat.repr agrees with the reference rendering decDigits, which evalDigits
inverts. -/

/-- Nat.toDigitsCore with enough fuel produces the reference digit list in
front of the accumulator. -/
theorem toDigitsCore_eq_decDigits :
    ∀ (fuel n : Nat) (ds : List Char), n < fuel →
      Nat.toDigitsCore 10 fuel n ds = decDigits n ++ ds := by
  intro fuel
  induction fuel with
  | zero => intro n ds h; omega
  | succ f ih =>
    intro n ds h
    rw [decDigits]
    simp only [Nat.toDigitsCore]
    by_cases h10 : n < 10
    · have hdiv : n / 10 = 0 := Nat.div_eq_of_lt h10
      have hmod : n % 10 = n := Nat.mod_eq_of_lt h10
      simp [hdiv, h10, hmod]
    · have hdiv : ¬ n / 10 = 0 := by
        intro hd
        exact h10 (by omega)
      have hlt : n / 10 < f := by
        have : n / 10 < n := Nat.div_lt_self (by omega) (by omega)
        omega
      simp only [hdiv, if_false, h10, dite_false]
      rw [ih (n / 10) _ hlt]
      simp

/-- Nat.repr is the reference digit list rendered as a string. -/
theorem repr_eq_decDigits (n : Nat) : Nat.repr n = (decDigits n).asString := by
  show (Nat.toDigits 10 n).asString = (decDigits n).asString
  rw [Nat.toDigits, toDigitsCore_eq_decDigits (n + 1) n [] (Nat.lt_succ_self n)]
  simp

/-- Digit characters below ten evaluate back to their value. -/
theorem digitVal_digitChar {n : Nat} (h : n < 10) :
    digitVal (Nat.digitChar n) = n := by
  interval_cases n <;> decide

/-- evalDigits inverts the reference rendering. -/
theorem evalDigits_decDigits : ∀ n : Nat, evalDigits (decDigits n) = n := by
  intro n
  induction n using Nat.strong_induction_on with
  | _ n ih =>
    rw [decDigits]
    by_cases h10 : n < 10
    · simp only [h10, dite_true]
      simp [evalDigits, digitVal_digitChar h10]
    · simp only [h10, dite_false]
      have hdrec : n / 10 < n := Nat.div_lt_self (by omega) (by omega)
      have hmod : n % 10 < 10 := Nat.mod_lt _ (by omega)
      simp only [evalDigits, List.foldl_append, List.foldl_cons, List.foldl_nil]
      have := ih (n / 10) hdrec
      rw [evalDigits] at this
      rw [this, digitVal_digitChar hmod]
      omega

/-- The decimal rendering of a counter is injective. -/
theorem natRepr_injective : Function.Injective Nat.repr := by
  intro m n h
  rw [repr_eq_decDigits, repr_eq_decDigits] at h
  have hl : decDigits m = decDigits n := by
    have := congrArg String.data h
    simpa [List.asString] using this
  have := congrArg evalDigits hl
  rwa [evalDigits_decDigits, evalDigits_decDigits] at this

/-- The reference rendering is never empty. -/
theorem decDigits_ne_nil (n : Nat) : decDigits n ≠ [] := by
  rw [decDigits]
  by_cases h10 : n < 10 <;> simp [h10]

/-- Candidate slugs for distinct counters are distinct strings. -/
theorem slugCandidate_injective (base : String) :
    Function.Injective (slugCandidate base) := by
  intro i j h
  unfold slugCandidate at h
  by_cases hi : i = 0 <;> by_cases hj : j = 0
  · omega
  · exfalso
    simp only [hi, if_true, hj, if_false] at h
    have := congrArg (fun s => s.data.length) h
    simp only [String.data_append] at this
    have hne : (Nat.repr j).data.length ≠ 0 := by
      rw [repr_eq_decDigits]
      simpa [List.asString] using decDigits_ne_nil j
    simp at this
    try omega
  · exfalso
    simp only [hi, if_false, hj, if_true] at h
    have := congrArg (fun s => s.data.length) h
    simp only [String.data_append] at this
    have hne : (Nat.repr i).data.length ≠ 0 := by
      rw [repr_eq_decDigits]
      simpa [List.asString] using decDigits_ne_nil i
    simp at this
    try omega
  · simp only [hi, if_false, hj, if_false] at h
    have hdata := congrArg String.data h
    simp only [String.data_append] at hdata
    have hrepr : (Nat.repr i).data = (Nat.repr j).data := by
      have h2 : base.data ++ ('-' :: (Nat.repr i).data) =
          base.data ++ ('-' :: (Nat.repr j).data) := by
        simpa [List.append_assoc] using hdata
      simpa using List.append_cancel_left h2
    have : Nat.repr i = Nat.repr j := by
      cases hri : Nat.repr i
      cases hrj : Nat.repr j
      simp_all
    exact natRepr_injective this

/-- A run of busy candidates below k forces at least k taken slugs. -/
theorem slugCandidate_busy_le {taken : List String} {base : String} {k : Nat}
    (hbusy : ∀ j < k, slugCandidate base j ∈ taken) : k ≤ taken.length := by
  classical
  have hcard : ((Finset.range k).image (slugCandidate base)).card = k := by
    rw [Finset.card_image_of_injective _ (slugCandidate_injective base),
      Finset.card_range]
  have hsub : (Finset.range k).image (slugCandidate base) ⊆ taken.toFinset := by
    intro s hs
    rcases Finset.mem_image.1 hs with ⟨j, hj, rfl⟩
    exact List.mem_toFinset.2 (hbusy j (Finset.mem_range.1 hj))
  calc k = ((Finset.range k).image (slugCandidate base)).card := hcard.symm
    _ ≤ taken.toFinset.card := Finset.card_le_card hsub
    _ ≤ taken.length := taken.toFinset_card_le

/-- Loop invariant of probeSlug: started at candidate i with counter i + 1,
with every candidate from i up to m taken and candidate m free, enough fuel
reaches exactly candidate m. -/
theorem probeSlug_reaches {taken : List String} {base : String} :
    ∀ (fuel i m : Nat),
      (∀ j, i ≤ j → j < m → slugCandidate base j ∈ taken) →
      slugCandidate base m ∉ taken → i ≤ m → m < i + fuel →
      probeSlug taken base fuel (slugCandidate base i) (i + 1) =
        slugCandidate base m := by
  intro fuel
  induction fuel with
  | zero => intro i m _ _ him hm; omega
  | succ f ih =>
    intro i m hbusy hfree him hm
    rw [probeSlug]
    by_cases hcur : slugCandidate base i ∈ taken
    · have hne : i ≠ m := by
        intro he
        exact hfree (he ▸ hcur)
      have hlt : i < m := by omega
      have hstep : base ++ "-" ++ Nat.repr (i + 1) = slugCandidate base (i + 1) := by
        simp [slugCandidate]
      simp only [hcur, if_true, hstep]
      exact ih (i + 1) m (fun j hj hjm => hbusy j (by omega) hjm) hfree (by omega)
        (by omega)
    · have heq : i = m := by
        rcases Nat.lt_or_ge i m with hlt | hge
        · exact absurd (hbusy i (le_refl i) hlt) hcur
        · omega
      rw [if_neg hcur, heq]

/-- generateUniqueSlug returns the first free candidate: if every candidate
below k is taken and candidate k is free, the result is candidate k. -/
theorem generateUniqueSlug_first_free {taken : List String} {base : String}
    {k : Nat} (hbusy : ∀ j < k, slugCandidate base j ∈ taken)
    (hfree : slugCandidate base k ∉ taken) :
    generateUniqueSlug taken base = slugCandidate base k := by
  have hk : k ≤ taken.length := slugCandidate_busy_le hbusy
  have h0 : slugCandidate base 0 = base := by simp [slugCandidate]
  rw [generateUniqueSlug, ← h0]
  exact probeSlug_reaches (taken.length + 1) 0 k
    (fun j _ hj => hbusy j hj) hfree (Nat.zero_le k) (by omega)

/-- Elimination form of a successful create_service run: all validations
passed and the result is the literal record built by the source. -/
theorem create_service_ok_elim {slugify : String → String} {db : DB}
    {a : CreateServiceArgs} {svc : Service} {db' : DB}
    (h : create_service slugify db a = .ok (svc, db')) :
    blankName a.name = false ∧
    badPriceRange a.pricing_type a.min_price a.max_price = false ∧
    ∃ category,
      resolveCategory db.categories a.category_id = .ok category ∧
      svc =
        { id := db.nextId
          name := pyStrip a.name
          slug := generateUniqueSlug (db.services.map (fun s => s.slug)) (slugify a.name)
          description := a.description
          short_description := a.short_description
          category := category
          pricing_type := a.pricing_type
          price := a.price
          min_price := a.min_price
          max_price := a.max_price
          cost := a.cost
          tax_rate := a.tax_rate
          duration_minutes := applyDefaultDuration db.config a.duration_minutes
          buffer_before := a.buffer_before
          buffer_after := a.buffer_after
          max_capacity := a.max_capacity
          is_bookable := a.is_bookable
          requires_confirmation := a.requires_confirmation
          allow_online_booking := a.allow_online_booking
          is_featured := a.is_featured
          sku := normalizeSku a.sku
          barcode := a.barcode
          notes := a.notes
          icon := a.icon
          color := a.color
          order := a.order } ∧
      db' = { db with services := db.services ++ [svc], nextId := db.nextId + 1 } := by
  unfold create_service at h
  split at h
  · exact absurd h (by simp)
  · rename_i hblank
    split at h
    · exact absurd h (by simp)
    · rename_i category hres
      split at h
      · exact absurd h (by simp)
      · rename_i hrange
        simp only [Except.ok.injEq, Prod.mk.injEq] at h
        refine ⟨by simpa using hblank, by simpa using hrange, category, hres, h.1.symm, ?_⟩
        rw [← h.2, ← h.1]

/-- C1: the include_tax_in_price flag alone decides which derived price
equals the stored price; the other follows the exact division/multiplication
formula, and the tax amount, the difference of the two, is nonnegative for a
nonnegative rate and price. -/
theorem tax_price_derivation (cfg : ServicesConfig) (s : Service)
    (hr : 0 ≤ s.effective_tax_rate cfg) (hp : 0 ≤ s.price) :
    (cfg.include_tax_in_price = true →
      s.price_with_tax cfg = s.price ∧
      s.price_without_tax cfg = s.price / (1 + s.effective_tax_rate cfg / 100)) ∧
    (cfg.include_tax_in_price = false →
      s.price_without_tax cfg = s.price ∧
      s.price_with_tax cfg = s.price * (1 + s.effective_tax_rate cfg / 100)) ∧
    s.tax_amount cfg = s.price_with_tax cfg - s.price_without_tax cfg ∧
    0 ≤ s.tax_amount cfg := by
  have h100 : (0 : ℚ) ≤ s.effective_tax_rate cfg / 100 := by positivity
  have hone : (1 : ℚ) ≤ 1 + s.effective_tax_rate cfg / 100 := by linarith
  refine ⟨?_, ?_, rfl, ?_⟩
  · intro hinc
    constructor
    · simp [Service.price_with_tax, hinc]
    · simp [Service.price_without_tax, hinc]
  · intro hinc
    constructor
    · simp [Service.price_without_tax, hinc]
    · simp [Service.price_with_tax, hinc]; ring
  · by_cases hinc : cfg.include_tax_in_price
    · have e1 : s.price_with_tax cfg = s.price := by
        simp [Service.price_with_tax, hinc]
      have e2 : s.price_without_tax cfg =
          s.price / (1 + s.effective_tax_rate cfg / 100) := by
        simp [Service.price_without_tax, hinc]
      rw [Service.tax_amount, e1, e2]
      linarith [div_le_self hp hone]
    · have e1 : s.price_with_tax cfg =
          s.price + s.price * (s.effective_tax_rate cfg / 100) := by
        simp [Service.price_with_tax, hinc]
      have e2 : s.price_without_tax cfg = s.price := by
        simp [Service.price_without_tax, hinc]
      rw [Service.tax_amount, e1, e2]
      linarith [mul_nonneg hp h100]

/-- Witness for tax_price_derivation at a concrete service (price 100,
default configuration: rate 21, prices tax-inclusive). -/
theorem tax_price_derivation_witness :
    (0 ≤ exPriceService.effective_tax_rate {} ∧ 0 ≤ exPriceService.price) ∧
    (({} : ServicesConfig).include_tax_in_price = true →
      exPriceService.price_with_tax {} = exPriceService.price ∧
      exPriceService.price_without_tax {} =
        exPriceService.price / (1 + exPriceService.effective_tax_rate {} / 100)) ∧
    (({} : ServicesConfig).include_tax_in_price = false →
      exPriceService.price_without_tax {} = exPriceService.price ∧
      exPriceService.price_with_tax {} =
        exPriceService.price * (1 + exPriceService.effective_tax_rate {} / 100)) ∧
    exPriceService.tax_amount {} =
      exPriceService.price_with_tax {} - exPriceService.price_without_tax {} ∧
    0 ≤ exPriceService.tax_amount {} :=
  ⟨⟨by decide, by decide⟩,
    tax_price_derivation {} exPriceService (by decide) (by decide)⟩

/-- C2: fixed_price always wins when set; otherwise percentage discounts
yield max 0 over original minus the percentage, fixed discounts max 0 over
original minus the amount; on the specification's worked example the numbers
are 150, 127.50, 22.50 and 15 percent. -/
theorem package_final_price_spec :
    (∀ (services : List Service) (items : List ServicePackageItem)
        (p : ServicePackage) (f : ℚ),
      p.fixed_price = some f → p.final_price services items = f) ∧
    (∀ (services : List Service) (items : List ServicePackageItem)
        (p : ServicePackage),
      p.fixed_price = none → p.discount_type = "percentage" →
      p.final_price services items =
        max 0 (p.original_price services items -
          p.original_price services items * (p.discount_value / 100))) ∧
    (∀ (services : List Service) (items : List ServicePackageItem)
        (p : ServicePackage),
      p.fixed_price = none → p.discount_type = "fixed" →
      p.final_price services items =
        max 0 (p.original_price services items - p.discount_value)) ∧
    exPkg.original_price [exSvc30, exSvc50, exSvc20] exItems = 150 ∧
    exPkg.final_price [exSvc30, exSvc50, exSvc20] exItems = 255 / 2 ∧
    exPkg.savings [exSvc30, exSvc50, exSvc20] exItems = 45 / 2 ∧
    exPkg.savings_percentage [exSvc30, exSvc50, exSvc20] exItems = 15 := by
  have horig : exPkg.original_price [exSvc30, exSvc50, exSvc20] exItems = 150 := by
    simp [ServicePackage.original_price, itemsOf, exItems, exPkg, exSvc30, exSvc50,
      exSvc20, servicePriceById]
    norm_num
  have hfinal : exPkg.final_price [exSvc30, exSvc50, exSvc20] exItems = 255 / 2 := by
    simp [ServicePackage.final_price, exPkg, horig]
    norm_num [ServicePackage.original_price, itemsOf, exItems, exPkg, exSvc30,
      exSvc50, exSvc20, servicePriceById]
  have hsav : exPkg.savings [exSvc30, exSvc50, exSvc20] exItems = 45 / 2 := by
    rw [ServicePackage.savings, horig, hfinal]; norm_num
  refine ⟨?_, ?_, ?_, horig, hfinal, hsav, ?_⟩
  · intro services items p f hf
    simp [ServicePackage.final_price, hf]
  · intro services items p hf hd
    simp [ServicePackage.final_price, hf, hd]
  · intro services items p hf hd
    simp [ServicePackage.final_price, hf, hd]
  · rw [ServicePackage.savings_percentage, if_neg (by rw [horig]; norm_num),
      ServicePackage.savings, horig, hfinal]
    norm_num

/-- Witness for package_final_price_spec: the percentage branch applied to
the example package. -/
theorem package_final_price_spec_witness :
    exPkg.fixed_price = none ∧ exPkg.discount_type = "percentage" ∧
    exPkg.final_price [exSvc30, exSvc50, exSvc20] exItems =
      max 0 (exPkg.original_price [exSvc30, exSvc50, exSvc20] exItems -
        exPkg.original_price [exSvc30, exSvc50, exSvc20] exItems *
          (exPkg.discount_value / 100)) :=
  ⟨rfl, rfl, package_final_price_spec.2.1 _ _ _ rfl rfl⟩

/-- The bare base candidate. -/
theorem slugCandidate_zero (base : String) : slugCandidate base 0 = base := by
  simp [slugCandidate]

/-- A successful create_service stores the generated slug and appends it to
the tenant's slug set. -/
theorem create_service_slug_eq {slugify : String → String} {db : DB}
    {a : CreateServiceArgs} {svc : Service} {db' : DB}
    (h : create_service slugify db a = .ok (svc, db')) :
    svc.slug = generateUniqueSlug (db.services.map (fun s => s.slug)) (slugify a.name) ∧
    db'.services.map (fun s => s.slug) =
      db.services.map (fun s => s.slug) ++ [svc.slug] := by
  obtain ⟨-, -, category, -, hsvc, hdb⟩ := create_service_ok_elim h
  constructor
  · rw [hsvc]
  · rw [hdb]
    simp

/-- C4: create_service derives its slug with the collision loop; the loop
takes the first free numeric suffix (counter starting at 1, probe re-run
after every increment), so three same-name creations in a fresh namespace
receive the bare slug, suffix 1 and suffix 2. -/
theorem create_service_slug_collision :
    (∀ (slugify : String → String) (db : DB) (a : CreateServiceArgs)
        (svc : Service) (db' : DB),
      create_service slugify db a = .ok (svc, db') →
      svc.slug =
        generateUniqueSlug (db.services.map (fun s => s.slug)) (slugify a.name)) ∧
    (∀ (taken : List String) (base : String) (k : Nat),
      (∀ j < k, slugCandidate base j ∈ taken) → slugCandidate base k ∉ taken →
      generateUniqueSlug taken base = slugCandidate base k) ∧
    (∀ (slugify : String → String) (db : DB) (a : CreateServiceArgs)
        (s1 s2 s3 : Service) (db1 db2 db3 : DB),
      create_service slugify db a = .ok (s1, db1) →
      create_service slugify db1 a = .ok (s2, db2) →
      create_service slugify db2 a = .ok (s3, db3) →
      slugify a.name ∉ db.services.map (fun s => s.slug) →
      slugCandidate (slugify a.name) 1 ∉ db.services.map (fun s => s.slug) →
      slugCandidate (slugify a.name) 2 ∉ db.services.map (fun s => s.slug) →
      s1.slug = slugify a.name ∧
      s2.slug = slugCandidate (slugify a.name) 1 ∧
      s3.slug = slugCandidate (slugify a.name) 2) := by
  refine ⟨fun slugify db a svc db' h => (create_service_slug_eq h).1,
    fun taken base k hbusy hfree => generateUniqueSlug_first_free hbusy hfree,
    ?_⟩
  intro slugify db a s1 s2 s3 db1 db2 db3 h1 h2 h3 hf0 hf1 hf2
  obtain ⟨e1slug, e1list⟩ := create_service_slug_eq h1
  obtain ⟨e2slug, e2list⟩ := create_service_slug_eq h2
  obtain ⟨e3slug, e3list⟩ := create_service_slug_eq h3
  have hinj := slugCandidate_injective (slugify a.name)
  have hne10 : slugCandidate (slugify a.name) 1 ≠ slugify a.name := by
    intro he
    have : (1 : Nat) = 0 := hinj (by rw [he, slugCandidate_zero])
    omega
  have hne20 : slugCandidate (slugify a.name) 2 ≠ slugify a.name := by
    intro he
    have : (2 : Nat) = 0 := hinj (by rw [he, slugCandidate_zero])
    omega
  have hne21 : slugCandidate (slugify a.name) 2 ≠ slugCandidate (slugify a.name) 1 := by
    intro he
    have : (2 : Nat) = 1 := hinj he
    omega
  have hs1 : s1.slug = slugify a.name := by
    rw [e1slug]
    have := @generateUniqueSlug_first_free (db.services.map (fun s => s.slug))
      (slugify a.name) 0 (by omega)
      (by rw [slugCandidate_zero]; exact hf0)
    rw [this, slugCandidate_zero]
  have hl1 : db1.services.map (fun s => s.slug) =
      db.services.map (fun s => s.slug) ++ [slugify a.name] := by
    rw [e1list, hs1]
  have hs2 : s2.slug = slugCandidate (slugify a.name) 1 := by
    rw [e2slug, hl1]
    refine generateUniqueSlug_first_free ?_ ?_
    · intro j hj
      have hj0 : j = 0 := by omega
      rw [hj0, slugCandidate_zero]
      simp
    · intro hmem
      rcases List.mem_append.1 hmem with hmem | hmem
      · exact hf1 hmem
      · exact hne10 (by simpa using hmem)
  have hl2 : db2.services.map (fun s => s.slug) =
      (db.services.map (fun s => s.slug) ++ [slugify a.name]) ++
        [slugCandidate (slugify a.name) 1] := by
    rw [e2list, hs2, hl1]
  have hs3 : s3.slug = slugCandidate (slugify a.name) 2 := by
    rw [e3slug, hl2]
    refine generateUniqueSlug_first_free ?_ ?_
    · intro j hj
      rcases (by omega : j = 0 ∨ j = 1) with hj0 | hj1
      · rw [hj0, slugCandidate_zero]
        simp
      · rw [hj1]
        simp
    · intro hmem
      rcases List.mem_append.1 hmem with hmem | hmem
      · rcases List.mem_append.1 hmem with hmem | hmem
        · exact hf2 hmem
        · exact hne20 (by simpa using hmem)
      · exact hne21 (by simpa using hmem)
  exact ⟨hs1, hs2, hs3⟩

/-- Witness for create_service_slug_collision: the loop applied to a taken
set holding the bare slug returns suffix 1. -/
theorem create_service_slug_collision_witness :
    (∀ j < 1, slugCandidate "x" j ∈ ["x"]) ∧ slugCandidate "x" 1 ∉ ["x"] ∧
    generateUniqueSlug ["x"] "x" = slugCandidate "x" 1 :=
  ⟨by decide, by decide,
    create_service_slug_collision.2.1 ["x"] "x" 1 (by decide) (by decide)⟩

/-- C10: create_service replaces a requested duration of exactly 60 by the
configured default duration whenever that default is not 60, and stores any
other requested duration unchanged. -/
theorem create_service_duration_default (slugify : String → String) (db : DB)
    (a : CreateServiceArgs) (svc : Service) (db' : DB)
    (h : create_service slugify db a = .ok (svc, db')) :
    (a.duration_minutes = 60 → db.config.default_duration ≠ 60 →
      svc.duration_minutes = db.config.default_duration) ∧
    (a.duration_minutes ≠ 60 → svc.duration_minutes = a.duration_minutes) := by
  obtain ⟨-, -, category, -, hsvc, -⟩ := create_service_ok_elim h
  constructor
  · intro h60 hdef
    rw [hsvc]
    simp [applyDefaultDuration, h60, hdef]
  · intro h60
    rw [hsvc]
    simp [applyDefaultDuration, h60]

/-- Witness for create_service_duration_default: a database configured with
default duration 45 and a creation request with duration 60. -/
theorem create_service_duration_default_witness :
    create_service idSlugify exDurDB exDurArgs =
      .ok (exDurSvc, { exDurDB with services := [exDurSvc], nextId := 2 }) ∧
    ((exDurArgs.duration_minutes = 60 → exDurDB.config.default_duration ≠ 60 →
        exDurSvc.duration_minutes = exDurDB.config.default_duration) ∧
     (exDurArgs.duration_minutes ≠ 60 →
        exDurSvc.duration_minutes = exDurArgs.duration_minutes)) := by
  have hrun : create_service idSlugify exDurDB exDurArgs =
      .ok (exDurSvc, { exDurDB with services := [exDurSvc], nextId := 2 }) := by
    rfl
  exact ⟨hrun, create_service_duration_default idSlugify exDurDB exDurArgs _ _ hrun⟩

/-- C7 counterexample: update_service accepts a blank name.  On a concrete
database it succeeds and writes the empty name (and the slug derived from
it), refuting the claim that every update operation rejects blank required
names with no write. -/
theorem update_service_blank_name_counterexample :
    blankName "" = true ∧
    update_service idSlugify exC7DB exC7Svc { name := some "" } =
      .ok { exC7DB with services := [{ exC7Svc with name := "", slug := "" }] } := by
  exact ⟨by decide, by rfl⟩

/-- C7 amended: every create operation of the service layer rejects a blank
or whitespace-only name with the source's validation message before any
write (the error return carries no state); update operations perform no such
check. -/
theorem create_operations_reject_blank_name :
    (∀ (slugify : String → String) (db : DB) (a : CreateServiceArgs),
      blankName a.name = true →
      create_service slugify db a = .error "Service name is required") ∧
    (∀ (slugify : String → String) (db : DB) (name : String)
        (parent_id : Option Nat) (description icon color : String) (order : Nat),
      blankName name = true →
      create_category slugify db name parent_id description icon color order =
        .error "Category name is required") ∧
    (∀ (db : DB) (svc : Service) (name : String) (pa : ℚ) (da : ℤ)
        (description : String) (order : Nat),
      blankName name = true →
      create_variant db svc name pa da description order =
        .error "Variant name is required") ∧
    (∀ (db : DB) (name : String) (price : ℚ) (dm : Nat) (description : String),
      blankName name = true →
      create_addon db name price dm description =
        .error "Addon name is required") ∧
    (∀ (slugify : String → String) (db : DB) (name : String)
        (items : List PackageItemArg) (dt : String) (dv : ℚ) (fp : Option ℚ)
        (description : String) (vd mu : Option Nat) (ft : Bool) (o : Nat),
      blankName name = true →
      create_package slugify db name items dt dv fp description vd mu ft o =
        .error "Package name is required") := by
  refine ⟨?_, ?_, ?_, ?_, ?_⟩
  · intro slugify db a h
    simp [create_service, h]
  · intro slugify db name parent_id description icon color order h
    simp [create_category, h]
  · intro db svc name pa da description order h
    simp [create_variant, h]
  · intro db name price dm description h
    simp [create_addon, h]
  · intro slugify db name items dt dv fp description vd mu ft o h
    simp [create_package, h]

/-- Witness for create_operations_reject_blank_name: a whitespace-only name
is rejected by create_service. -/
theorem create_operations_reject_blank_name_witness :
    blankName " " = true ∧
    create_service idSlugify {} { name := " " } =
      .error "Service name is required" :=
  ⟨by decide, create_operations_reject_blank_name.1 idSlugify {} { name := " " }
    (by decide)⟩

/-- C8 counterexample: create_package with a single unresolvable service id
does not return a not-found failure; it succeeds and persists the package
with the item silently skipped. -/
theorem create_package_missing_service_counterexample :
    ({} : DB).services = [] ∧
    create_package idSlugify {} "P" [{ service_id := 999 }] =
      .ok (exC8Pkg, { ({} : DB) with packages := [exC8Pkg], nextId := 2 }) := by
  exact ⟨rfl, by rfl⟩

/-- C8 amended: category and parent foreign keys are resolved with a
distinct not-found failure and no write (create_service, update_service,
create_category), but create_package resolves service ids leniently: the
package row is persisted and exactly the resolvable service_items become
rows (unresolvable ids are skipped), every created row referencing an
existing service. -/
theorem foreign_key_resolution_spec :
    (∀ (slugify : String → String) (db : DB) (a : CreateServiceArgs) (cid : Nat),
      blankName a.name = false → a.category_id = some cid → cid ≠ 0 →
      db.categories.find? (fun c => c.id == cid) = none →
      create_service slugify db a = .error "Category not found") ∧
    (∀ (slugify : String → String) (db : DB) (svc : Service) (p : ServicePatch)
        (cid : Nat),
      p.category_id = some (some cid) → cid ≠ 0 →
      db.categories.find? (fun c => c.id == cid) = none →
      update_service slugify db svc p = .error "Category not found") ∧
    (∀ (slugify : String → String) (db : DB) (name : String) (pid : Nat)
        (description icon color : String) (order : Nat),
      blankName name = false → pid ≠ 0 →
      db.categories.find? (fun c => c.id == pid) = none →
      create_category slugify db name (some pid) description icon color order =
        .error "Parent category not found") ∧
    (∀ (slugify : String → String) (db : DB) (name : String)
        (items : List PackageItemArg) (dt : String) (dv : ℚ) (fp : Option ℚ)
        (description : String) (vd mu : Option Nat) (ft : Bool) (o : Nat)
        (pkg : ServicePackage) (db' : DB),
      create_package slugify db name items dt dv fp description vd mu ft o =
        .ok (pkg, db') →
      db'.packages = db.packages ++ [pkg] ∧
      db'.packageItems =
        db.packageItems ++ buildPackageItems db.services db.nextId items) ∧
    (∀ (services : List Service) (pid : Nat) (items : List PackageItemArg)
        (it : ServicePackageItem),
      it ∈ buildPackageItems services pid items →
      ∃ s ∈ services, s.id = it.service) := by
  refine ⟨?_, ?_, ?_, ?_, ?_⟩
  · intro slugify db a cid hblank hcid hnz hfind
    simp [create_service, hblank, resolveCategory, hcid, hnz, hfind]
  · intro slugify db svc p cid hcid hnz hfind
    simp [update_service, resolvePatchCategory, hcid, hnz, hfind]
  · intro slugify db name pid description icon color order hblank hnz hfind
    simp [create_category, hblank, hnz, hfind]
  · intro slugify db name items dt dv fp description vd mu ft o pkg db' h
    unfold create_package at h
    split at h
    · exact absurd h (by simp)
    · split at h
      · exact absurd h (by simp)
      · simp only [Except.ok.injEq, Prod.mk.injEq] at h
        obtain ⟨hpkg, hdb⟩ := h
        rw [← hdb]
        constructor
        · simp [← hpkg]
        · simp [← hpkg]
  · intro services pid items it hit
    unfold buildPackageItems at hit
    rcases List.mem_filterMap.1 hit with ⟨x, -, hx⟩
    rcases hfind : services.find? (fun s => s.id == x.2.service_id) with _ | s
    · rw [hfind] at hx
      simp at hx
    · rw [hfind] at hx
      simp only [Option.some.injEq] at hx
      refine ⟨s, List.mem_of_find?_eq_some hfind, ?_⟩
      rw [← hx]

/-- Witness for foreign_key_resolution_spec: creating a service against an
unresolvable category id 7 in an empty database fails with the not-found
message. -/
theorem foreign_key_resolution_spec_witness :
    blankName "S" = false ∧
    ({} : DB).categories.find? (fun c => c.id == 7) = none ∧
    create_service idSlugify {} { name := "S", category_id := some 7 } =
      .error "Category not found" :=
  ⟨by decide, rfl,
    foreign_key_resolution_spec.1 idSlugify {} { name := "S", category_id := some 7 }
      7 (by decide) rfl (by decide) rfl⟩

/-- The collision loop always lands on a slug outside the taken set. -/
theorem generateUniqueSlug_not_mem (taken : List String) (base : String) :
    generateUniqueSlug taken base ∉ taken := by
  classical
  have hex : ∃ k, slugCandidate base k ∉ taken := by
    by_contra hall
    push_neg at hall
    have := @slugCandidate_busy_le taken base (taken.length + 1)
      (fun j _ => hall j)
    omega
  have hgen := @generateUniqueSlug_first_free taken base (Nat.find hex)
    (fun j hj => not_not.1 (Nat.find_min hex hj))
    (Nat.find_spec hex)
  rw [hgen]
  exact Nat.find_spec hex

/-- C5 counterexample: duplication does not copy every scalar field besides
is_featured and barcode — the source's sort order 5 comes out as 0 on the
copy (sku, is_active and a 60-minute duration under a non-60 default are
likewise not copied). -/
theorem duplicate_service_order_counterexample :
    duplicate_service idSlugify exC5DB exC5Svc none =
      .ok (exC5New, { exC5DB with services := [exC5Svc, exC5New], nextId := 3 }) ∧
    exC5Svc.order = 5 ∧ exC5New.order = 0 := by
  exact ⟨by rfl, by decide, by decide⟩

/-- C5 amended: duplicate_service copies the fields it forwards to
create_service (price, category, descriptions, pricing fields, cost, tax
override, buffers, capacity, booking flags, notes, icon, color), derives the
name, regenerates a fresh unique slug, resets is_featured, barcode, sku,
order and is_active to their defaults, subjects the duration to the
create-time default substitution, re-attaches the same addon set, and
deep-copies the variants onto the new id, each copy preserving name and
adjustments so that its final price and final duration are the new service's
own price and duration plus those adjustments. -/
theorem duplicate_service_spec (slugify : String → String) (db : DB)
    (svc : Service) (new_name : Option String) (ns : Service) (db' : DB)
    (h : duplicate_service slugify db svc new_name = .ok (ns, db'))
    (hfresh : ∀ v ∈ db.variants, v.service ≠ db.nextId) :
    ns.id = db.nextId ∧
    ns.name = pyStrip (new_name.getD (svc.name ++ " (Copy)")) ∧
    ns.slug =
      generateUniqueSlug (db.services.map (fun s => s.slug))
        (slugify (new_name.getD (svc.name ++ " (Copy)"))) ∧
    ns.slug ∉ db.services.map (fun s => s.slug) ∧
    ns.price = svc.price ∧
    ns.description = svc.description ∧
    ns.short_description = svc.short_description ∧
    ns.pricing_type = svc.pricing_type ∧
    ns.min_price = svc.min_price ∧
    ns.max_price = svc.max_price ∧
    ns.cost = svc.cost ∧
    ns.tax_rate = svc.tax_rate ∧
    ns.duration_minutes = applyDefaultDuration db.config svc.duration_minutes ∧
    ns.buffer_before = svc.buffer_before ∧
    ns.buffer_after = svc.buffer_after ∧
    ns.max_capacity = svc.max_capacity ∧
    ns.is_bookable = svc.is_bookable ∧
    ns.requires_confirmation = svc.requires_confirmation ∧
    ns.allow_online_booking = svc.allow_online_booking ∧
    ns.notes = svc.notes ∧
    ns.icon = svc.icon ∧
    ns.color = svc.color ∧
    ns.is_featured = false ∧
    ns.barcode = "" ∧
    ns.sku = none ∧
    ns.order = 0 ∧
    ns.is_active = true ∧
    (svc.category = none → ns.category = none) ∧
    (∀ cid, svc.category = some cid → cid ≠ 0 → ns.category = some cid) ∧
    ns.addons = svc.addons ∧
    db'.variants =
      db.variants ++
        (db.variants.filter (fun v => v.service = svc.id)).map
          (fun v =>
            { service := ns.id
              name := v.name
              description := v.description
              price_adjustment := v.price_adjustment
              duration_adjustment := v.duration_adjustment
              order := v.order
              is_active := v.is_active : ServiceVariant }) ∧
    (∀ c ∈ db'.variants, c.service = ns.id →
      ∃ v ∈ db.variants, v.service = svc.id ∧
        c.name = v.name ∧
        c.price_adjustment = v.price_adjustment ∧
        c.duration_adjustment = v.duration_adjustment ∧
        c.order = v.order ∧
        c.is_active = v.is_active ∧
        c.final_price ns = svc.price + v.price_adjustment ∧
        c.final_duration ns = (ns.duration_minutes : ℤ) + v.duration_adjustment) := by
  unfold duplicate_service at h
  dsimp only at h
  rcases hcreate : create_service slugify db
      { name := new_name.getD (svc.name ++ " (Copy)")
        price := svc.price
        duration_minutes := svc.duration_minutes
        category_id := svc.category
        description := svc.description
        short_description := svc.short_description
        pricing_type := svc.pricing_type
        min_price := svc.min_price
        max_price := svc.max_price
        cost := svc.cost
        tax_rate := svc.tax_rate
        buffer_before := svc.buffer_before
        buffer_after := svc.buffer_after
        max_capacity := svc.max_capacity
        is_bookable := svc.is_bookable
        requires_confirmation := svc.requires_confirmation
        allow_online_booking := svc.allow_online_booking
        is_featured := false
        barcode := ""
        notes := svc.notes
        icon := svc.icon
        color := svc.color } with _ | ⟨created, db1⟩
  · rw [hcreate] at h
    exact absurd h (by simp)
  · rw [hcreate] at h
    simp only [Except.ok.injEq, Prod.mk.injEq] at h
    obtain ⟨hns, hdb'⟩ := h
    obtain ⟨-, -, category, hres, hsvc, hdb1⟩ := create_service_ok_elim hcreate
    have hns' : ns = { created with addons := svc.addons } := hns.symm
    have hvars1 : db1.variants = db.variants := by rw [hdb1]
    have hcatnone : svc.category = none → ns.category = none := by
      intro hc
      rw [hc] at hres
      simp only [resolveCategory] at hres
      cases hres
      rw [hns', hsvc]
    have hcatsome : ∀ cid, svc.category = some cid → cid ≠ 0 → ns.category = some cid := by
      intro cid hc hnz
      rw [hc] at hres
      simp only [resolveCategory, hnz, if_false] at hres
      rcases hfind : db.categories.find? (fun c => c.id == cid) with _ | c
      · rw [hfind] at hres
        simp at hres
      · rw [hfind] at hres
        simp only [Except.ok.injEq] at hres
        have hcid : c.id = cid := by
          have := List.find?_some hfind
          simpa using this
        rw [hns', hsvc]
        simp [← hres, hcid]
    have hfreshslug :
        generateUniqueSlug (db.services.map (fun s => s.slug))
          (slugify (new_name.getD (svc.name ++ " (Copy)"))) ∉
          db.services.map (fun s => s.slug) :=
      generateUniqueSlug_not_mem _ _
    have hvareq : db'.variants =
        db.variants ++
          (db.variants.filter (fun v => v.service = svc.id)).map
            (fun v =>
              { service := ns.id
                name := v.name
                description := v.description
                price_adjustment := v.price_adjustment
                duration_adjustment := v.duration_adjustment
                order := v.order
                is_active := v.is_active : ServiceVariant }) := by
      rw [← hdb']
      simp only [hvars1]
      have : created.id = ns.id := by rw [hns']
      rw [this]
    refine ⟨?_, ?_, ?_, ?_, ?_, ?_, ?_, ?_, ?_, ?_, ?_, ?_, ?_, ?_, ?_, ?_, ?_,
      ?_, ?_, ?_, ?_, ?_, ?_, ?_, ?_, ?_, ?_, hcatnone, hcatsome, ?_, hvareq, ?_⟩
    · rw [hns', hsvc]
    · rw [hns', hsvc]
    · rw [hns', hsvc]
    · rw [hns', hsvc]
      exact hfreshslug
    · rw [hns', hsvc]
    · rw [hns', hsvc]
    · rw [hns', hsvc]
    · rw [hns', hsvc]
    · rw [hns', hsvc]
    · rw [hns', hsvc]
    · rw [hns', hsvc]
    · rw [hns', hsvc]
    · rw [hns', hsvc]
    · rw [hns', hsvc]
    · rw [hns', hsvc]
    · rw [hns', hsvc]
    · rw [hns', hsvc]
    · rw [hns', hsvc]
    · rw [hns', hsvc]
    · rw [hns', hsvc]
    · rw [hns', hsvc]
    · rw [hns', hsvc]
    · rw [hns', hsvc]
    · rw [hns', hsvc]
    · rw [hns', hsvc]
      simp [normalizeSku]
    · rw [hns', hsvc]
    · rw [hns', hsvc]
    · rw [hns']
    · intro c hc hcid
      rw [hvareq] at hc
      rcases List.mem_append.1 hc with hc | hc
      · exact absurd (hcid.trans (by rw [hns', hsvc])) (hfresh c hc)
      · rcases List.mem_map.1 hc with ⟨v, hv, hcv⟩
        have hvsvc : v.service = svc.id := by
          have := List.of_mem_filter hv
          simpa using this
        refine ⟨v, List.mem_of_mem_filter hv, hvsvc, ?_, ?_, ?_, ?_, ?_, ?_, ?_⟩
        · rw [← hcv]
        · rw [← hcv]
        · rw [← hcv]
        · rw [← hcv]
        · rw [← hcv]
        · rw [ServiceVariant.final_price, ← hcv]
          have : ns.price = svc.price := by rw [hns', hsvc]
          rw [this]
        · rw [ServiceVariant.final_duration, ← hcv]

/-- Witness for duplicate_service_spec: the concrete duplication of the
order-5 service (no variants, so freshness is vacuous). -/
theorem duplicate_service_spec_witness :
    duplicate_service idSlugify exC5DB exC5Svc none = .ok (exC5New,
      { exC5DB with services := [exC5Svc, exC5New], nextId := 3 }) ∧
    exC5New.price = exC5Svc.price ∧ exC5New.is_featured = false ∧
    exC5New.barcode = "" ∧ exC5New.sku = none ∧ exC5New.order = 0 ∧
    exC5New.addons = exC5Svc.addons := by
  have hrun : duplicate_service idSlugify exC5DB exC5Svc none = .ok (exC5New,
      { exC5DB with services := [exC5Svc, exC5New], nextId := 3 }) := by rfl
  have h := duplicate_service_spec idSlugify exC5DB exC5Svc none exC5New
    { exC5DB with services := [exC5Svc, exC5New], nextId := 3 } hrun
    (by intro v hv; simp [exC5DB] at hv)
  exact ⟨hrun, h.2.2.2.2.1, h.2.2.2.2.2.2.2.2.2.2.2.2.2.2.2.2.2.2.2.2.2.2.1,
    h.2.2.2.2.2.2.2.2.2.2.2.2.2.2.2.2.2.2.2.2.2.2.2.1,
    h.2.2.2.2.2.2.2.2.2.2.2.2.2.2.2.2.2.2.2.2.2.2.2.2.1,
    h.2.2.2.2.2.2.2.2.2.2.2.2.2.2.2.2.2.2.2.2.2.2.2.2.2.1,
    h.2.2.2.2.2.2.2.2.2.2.2.2.2.2.2.2.2.2.2.2.2.2.2.2.2.2.2.2.2.1⟩

/-- A category with no children has no descendants at any fuel. -/
theorem getDescendantsF_nil_of_no_children {cats : List ServiceCategory}
    {c : ServiceCategory} (h : childrenOf cats c = []) :
    ∀ fuel, getDescendantsF cats fuel c = [] := by
  intro fuel
  cases fuel with
  | zero => rfl
  | succ f => simp [getDescendantsF, h]

/-- Rows with equal primary keys are equal under the unique-id invariant. -/
theorem eq_of_id_eq {cats : List ServiceCategory} (hnd : NodupIds cats)
    {r s : ServiceCategory} (hr : r ∈ cats) (hs : s ∈ cats)
    (h : r.id = s.id) : r = s :=
  List.inj_on_of_nodup_map hnd hr hs h

/-- C6: delete_category with move_to_parent first repoints every direct
child category and every directly assigned service at the deleted category's
former parent (null at a root), then removes the row; afterwards no category
and no service references the deleted id. -/
theorem delete_category_move_to_parent (db : DB) (c : ServiceCategory)
    (db' : DB) (hc : c ∈ db.categories) (hnd : NodupIds db.categories)
    (hself : c.parent ≠ some c.id)
    (hdb' : delete_category db c true = db') :
    (∀ r ∈ db'.categories, r.id ≠ c.id) ∧
    (∀ r ∈ db'.categories, r.parent ≠ some c.id) ∧
    (∀ s ∈ db'.services, s.category ≠ some c.id) ∧
    (∀ r ∈ db.categories, r.parent = some c.id →
      ∃ r' ∈ db'.categories, r'.id = r.id ∧ r'.parent = c.parent) ∧
    (∀ s ∈ db.services, s.category = some c.id →
      ∃ s' ∈ db'.services, s'.id = s.id ∧ s'.category = c.parent) := by
  have hmove : delete_category db c true =
      let db1 : DB :=
        { db with
          services := db.services.map
            (fun s => if s.category == some c.id then { s with category := c.parent } else s)
          categories := db.categories.map
            (fun r => if r.parent == some c.id then { r with parent := c.parent } else r) }
      let doomed := c.id :: (get_descendants db1.categories c).map (fun d => d.id)
      { db1 with
        categories := db1.categories.filter (fun r => ¬ r.id ∈ doomed)
        services := db1.services.map
          (fun s =>
            match s.category with
            | some cid => if cid ∈ doomed then { s with category := none } else s
            | none => s) } := by
    rfl
  set phi := fun r : ServiceCategory =>
    if r.parent == some c.id then { r with parent := c.parent } else r with hphi
  have hpar1 : ∀ r ∈ db.categories.map phi, r.parent ≠ some c.id := by
    intro r hr
    rcases List.mem_map.1 hr with ⟨r0, -, hr0⟩
    rw [← hr0, hphi]
    by_cases hcond : r0.parent == some c.id
    · simp only [hcond, if_true]
      exact hself
    · simp only [hcond, if_false]
      simpa using hcond
  have hchild : childrenOf (db.categories.map phi) c = [] := by
    rw [childrenOf, List.filter_eq_nil_iff]
    intro r hr
    have := hpar1 r hr
    simpa using this
  have hdesc : get_descendants (db.categories.map phi) c = [] := by
    rw [get_descendants]
    exact getDescendantsF_nil_of_no_children hchild _
  rw [hmove] at hdb'
  simp only [hdesc, List.map_nil] at hdb'
  rw [← hdb']
  refine ⟨?_, ?_, ?_, ?_, ?_⟩
  · intro r hr
    have := List.of_mem_filter hr
    simpa using this
  · intro r hr
    exact hpar1 r (List.mem_of_mem_filter hr)
  · intro s hs
    rcases List.mem_map.1 hs with ⟨s1, -, hs1⟩
    rw [← hs1]
    rcases hcat : s1.category with _ | cid
    · simp [hcat]
    · by_cases hcid : cid = c.id
      · simp [hcat, hcid]
      · simp [hcat, hcid]
  · intro r hr hrp
    have hid : r.id ≠ c.id := by
      intro he
      have := eq_of_id_eq hnd hr hc he
      rw [this] at hrp
      exact hself hrp
    refine ⟨phi r, ?_, ?_, ?_⟩
    · apply List.mem_filter.2
      refine ⟨List.mem_map_of_mem phi hr, ?_⟩
      rw [hphi]
      simp only [hrp]
      simpa using hid
    · rw [hphi]
      simp [hrp]
    · rw [hphi]
      simp [hrp]
  · intro s hs hsc
    set psi := fun s : Service =>
      match s.category with
      | some cid => if cid ∈ [c.id] then { s with category := none } else s
      | none => s with hpsi
    have hs1mem : { s with category := c.parent } ∈ db.services.map
        (fun s => if s.category == some c.id then { s with category := c.parent } else s) := by
      have := List.mem_map_of_mem
        (fun s : Service =>
          if s.category == some c.id then { s with category := c.parent } else s) hs
      simpa [hsc] using this
    refine ⟨psi { s with category := c.parent }, List.mem_map_of_mem psi hs1mem, ?_, ?_⟩
    · rw [hpsi]
      rcases hcp : c.parent with _ | p
      · rfl
      · have hp : p ≠ c.id := by
          intro he
          rw [he] at hcp
          exact hself hcp
        simp [hp]
    · rw [hpsi]
      rcases hcp : c.parent with _ | p
      · rfl
      · have hp : p ≠ c.id := by
          intro he
          rw [he] at hcp
          exact hself hcp
        simp [hp]

/-- Witness for delete_category_move_to_parent: a parent with one child
category and one assigned service. -/
theorem delete_category_move_to_parent_witness :
    (exC6Cat ∈ exC6DB.categories ∧ NodupIds exC6DB.categories ∧
      exC6Cat.parent ≠ some exC6Cat.id) ∧
    ((∀ r ∈ (delete_category exC6DB exC6Cat true).categories, r.id ≠ exC6Cat.id) ∧
     (∀ r ∈ (delete_category exC6DB exC6Cat true).categories,
        r.parent ≠ some exC6Cat.id) ∧
     (∀ s ∈ (delete_category exC6DB exC6Cat true).services,
        s.category ≠ some exC6Cat.id) ∧
     (∀ r ∈ exC6DB.categories, r.parent = some exC6Cat.id →
        ∃ r' ∈ (delete_category exC6DB exC6Cat true).categories,
          r'.id = r.id ∧ r'.parent = exC6Cat.parent) ∧
     (∀ s ∈ exC6DB.services, s.category = some exC6Cat.id →
        ∃ s' ∈ (delete_category exC6DB exC6Cat true).services,
          s'.id = s.id ∧ s'.category = exC6Cat.parent)) :=
  ⟨⟨by decide, by unfold NodupIds; decide, by decide⟩,
    delete_category_move_to_parent exC6DB exC6Cat _ (by decide)
      (by unfold NodupIds; decide) (by decide) rfl⟩

/-! ### Category-graph theory

Lemmas relating the traversal get_descendants to the parent-step relation
iterParent: soundness, completeness, fuel sufficiency on acyclic data, and
preservation of acyclicity by the guarded parent update. -/

/-- Lookup by primary key returns the row itself under the unique-id
invariant. -/
theorem find?_id_eq {cats : List ServiceCategory} (hnd : NodupIds cats)
    {c : ServiceCategory} (hc : c ∈ cats) :
    cats.find? (fun r => r.id == c.id) = some c := by
  induction cats with
  | nil => cases hc
  | cons a rest ih =>
    have hnd0 : a.id ∉ rest.map (fun r => r.id) ∧ NodupIds rest := by
      simpa [NodupIds, List.nodup_cons] using hnd
    rcases List.mem_cons.1 hc with rfl | hc'
    · simp [List.find?_cons]
    · have hne : a.id ≠ c.id := by
        intro he
        exact hnd0.1 (he ▸ List.mem_map_of_mem (fun r => r.id) hc')
      rw [List.find?_cons]
      have : (a.id == c.id) = false := by simpa using hne
      rw [this]
      exact ih hnd0.2 hc'

/-- The parent map agrees with the row's parent field. -/
theorem parentOf_eq {cats : List ServiceCategory} (hnd : NodupIds cats)
    {c : ServiceCategory} (hc : c ∈ cats) : parentOf cats c.id = c.parent := by
  rw [parentOf, find?_id_eq hnd hc]

/-- A defined parent step exits from an existing row. -/
theorem parentOf_some {cats : List ServiceCategory} {v p : Nat}
    (h : parentOf cats v = some p) :
    ∃ r ∈ cats, r.id = v ∧ r.parent = some p := by
  rw [parentOf] at h
  rcases hfind : cats.find? (fun r => r.id == v) with _ | r
  · rw [hfind] at h
    cases h
  · rw [hfind] at h
    refine ⟨r, List.mem_of_find?_eq_some hfind, ?_, h⟩
    simpa using List.find?_some hfind

/-- Splitting an iterated parent walk. -/
theorem iterParent_add (cats : List ServiceCategory) :
    ∀ (a b i : Nat),
      iterParent cats (a + b) i =
        (iterParent cats a i).bind (fun j => iterParent cats b j) := by
  intro a
  induction a with
  | zero => intro b i; simp [iterParent]
  | succ a ih =>
    intro b i
    rw [show a + 1 + b = (a + b) + 1 by omega]
    rcases hp : parentOf cats i with _ | p
    · simp [iterParent, hp]
    · simp [iterParent, hp, ih]

/-- Appending one parent step at the end of a walk. -/
theorem iterParent_succ_back (cats : List ServiceCategory) (k i : Nat) :
    iterParent cats (k + 1) i = (iterParent cats k i).bind (parentOf cats) := by
  rw [iterParent_add cats k 1 i]
  congr 1
  funext j
  show (match parentOf cats j with
    | some p => iterParent cats 0 p
    | none => none) = parentOf cats j
  rcases parentOf cats j with _ | p <;> rfl

/-- A prefix of a defined walk is defined. -/
theorem iterParent_prefix {cats : List ServiceCategory} {k i j : Nat}
    (h : iterParent cats k i = some j) {t : Nat} (ht : t ≤ k) :
    ∃ v, iterParent cats t i = some v := by
  have hsplit := iterParent_add cats t (k - t) i
  rw [show t + (k - t) = k by omega] at hsplit
  rw [h] at hsplit
  rcases hv : iterParent cats t i with _ | v
  · rw [hv] at hsplit
    cases hsplit
  · exact ⟨v, rfl⟩

/-- On acyclic data with unique ids, any defined walk is no longer than the
table: the visited ids are pairwise distinct rows. -/
theorem iterParent_le_length {cats : List ServiceCategory}
    (hac : Acyclic cats) (hnd : NodupIds cats) {k i j : Nat}
    (h : iterParent cats k i = some j) : k ≤ cats.length := by
  classical
  have hinj : Set.InjOn (fun t => iterParent cats t i) (Finset.range k) := by
    intro t1 ht1 t2 ht2 he
    by_contra hne
    rcases Nat.lt_or_ge t1 t2 with hlt | hge
    · rcases iterParent_prefix h (show t2 ≤ k by
        simpa using Nat.le_of_lt (Finset.mem_range.1 ht2)) with ⟨v, hv⟩
      have hsplit := iterParent_add cats t1 (t2 - t1) i
      rw [show t1 + (t2 - t1) = t2 by omega, hv] at hsplit
      have h1 : iterParent cats t1 i = some v := by
        rw [show iterParent cats t1 i = iterParent cats t2 i from he, hv]
      rw [h1] at hsplit
      simp only [Option.some_bind] at hsplit
      exact hac v (t2 - t1) (by omega) hsplit.symm
    · have hlt : t2 < t1 := by omega
      rcases iterParent_prefix h (show t1 ≤ k by
        simpa using Nat.le_of_lt (Finset.mem_range.1 ht1)) with ⟨v, hv⟩
      have hsplit := iterParent_add cats t2 (t1 - t2) i
      rw [show t2 + (t1 - t2) = t1 by omega, hv] at hsplit
      have h1 : iterParent cats t2 i = some v := by
        rw [← show iterParent cats t1 i = iterParent cats t2 i from he, hv]
      rw [h1] at hsplit
      simp only [Option.some_bind] at hsplit
      exact hac v (t1 - t2) (by omega) hsplit.symm
  have hsub : (Finset.range k).image (fun t => iterParent cats t i) ⊆
      (cats.map (fun r => (some r.id : Option Nat))).toFinset := by
    intro x hx
    rcases Finset.mem_image.1 hx with ⟨t, ht, rfl⟩
    have htk : t < k := Finset.mem_range.1 ht
    rcases iterParent_prefix h (show t + 1 ≤ k by omega) with ⟨w, hw⟩
    rw [iterParent_succ_back] at hw
    rcases hv : iterParent cats t i with _ | v
    · rw [hv] at hw
      cases hw
    · rw [hv] at hw
      simp only [Option.some_bind] at hw
      rcases parentOf_some hw with ⟨r, hr, hrid, -⟩
      refine List.mem_toFinset.2 ?_
      have hm := List.mem_map_of_mem (fun r => (some r.id : Option Nat)) hr
      simp only at hm
      rw [hrid] at hm
      exact hm
  have hcard := Finset.card_le_card hsub
  rw [Finset.card_image_of_injOn hinj, Finset.card_range] at hcard
  calc k ≤ (cats.map (fun r => (some r.id : Option Nat))).toFinset.card := hcard
    _ ≤ (cats.map (fun r => (some r.id : Option Nat))).length :=
        (cats.map (fun r => (some r.id : Option Nat))).toFinset_card_le
    _ = cats.length := by simp

/-- Traversal soundness: every listed descendant is a row that reaches the
category by parent steps. -/
theorem getDescendantsF_sound {cats : List ServiceCategory}
    (hnd : NodupIds cats) :
    ∀ (fuel : Nat) (c d : ServiceCategory), d ∈ getDescendantsF cats fuel c →
      d ∈ cats ∧ ∃ k, 0 < k ∧ iterParent cats k d.id = some c.id := by
  intro fuel
  induction fuel with
  | zero => intro c d hd; cases hd
  | succ f ih =>
    intro c d hd
    rw [getDescendantsF] at hd
    rcases List.mem_flatMap.1 hd with ⟨ch, hch, hd'⟩
    have hchmem : ch ∈ cats := List.mem_of_mem_filter hch
    have hchpar : ch.parent = some c.id := by
      have := List.of_mem_filter hch
      simpa using this
    rcases List.mem_cons.1 hd' with rfl | hd''
    · refine ⟨hchmem, 1, by omega, ?_⟩
      show (match parentOf cats d.id with
        | some p => iterParent cats 0 p
        | none => none) = some c.id
      rw [parentOf_eq hnd hchmem, hchpar]
      rfl
    · rcases ih ch d hd'' with ⟨hdm, k, hk, hik⟩
      refine ⟨hdm, k + 1, by omega, ?_⟩
      rw [iterParent_succ_back, hik]
      simp only [Option.some_bind]
      rw [parentOf_eq hnd hchmem, hchpar]

/-- Lifting one child edge over a descendant traversal. -/
theorem getDescendantsF_child_lift {cats : List ServiceCategory} :
    ∀ (fuel : Nat) (c r d : ServiceCategory),
      r ∈ getDescendantsF cats fuel c → d ∈ childrenOf cats r →
      d ∈ getDescendantsF cats (fuel + 1) c := by
  intro fuel
  induction fuel with
  | zero => intro c r d hr; cases hr
  | succ f ih =>
    intro c r d hr hd
    rw [getDescendantsF] at hr
    rcases List.mem_flatMap.1 hr with ⟨ch, hch, hr'⟩
    rcases List.mem_cons.1 hr' with rfl | hr''
    · rw [getDescendantsF]
      refine List.mem_flatMap.2 ⟨r, hch, ?_⟩
      refine List.mem_cons.2 (Or.inr ?_)
      rw [getDescendantsF]
      exact List.mem_flatMap.2 ⟨d, hd, List.mem_cons.2 (Or.inl rfl)⟩
    · have := ih ch r d hr'' hd
      rw [getDescendantsF]
      exact List.mem_flatMap.2 ⟨ch, hch, List.mem_cons.2 (Or.inr this)⟩

/-- Traversal completeness: a row reaching the category in k parent steps is
listed once the fuel covers k. -/
theorem getDescendantsF_complete {cats : List ServiceCategory}
    (hnd : NodupIds cats) :
    ∀ (k : Nat), 0 < k → ∀ (c d : ServiceCategory), d ∈ cats →
      iterParent cats k d.id = some c.id →
      ∀ fuel, k ≤ fuel → d ∈ getDescendantsF cats fuel c := by
  intro k
  induction k using Nat.strong_induction_on with
  | _ k ihk =>
    intro hk c d hd hiter fuel hfuel
    rcases Nat.exists_eq_succ_of_ne_zero (by omega : k ≠ 0) with ⟨k', rfl⟩
    have hstep : ∃ p, parentOf cats d.id = some p ∧
        iterParent cats k' p = some c.id := by
      revert hiter
      show (match parentOf cats d.id with
        | some p => iterParent cats k' p
        | none => none) = some c.id → _
      rcases hp : parentOf cats d.id with _ | p
      · intro hh; cases hh
      · intro hh; exact ⟨p, rfl, hh⟩
    rcases hstep with ⟨p, hp, hrest⟩
    have hdpar : d.parent = some p := by
      rw [parentOf_eq hnd hd] at hp
      exact hp
    rcases Nat.eq_zero_or_pos k' with rfl | hk'
    · have hpc : p = c.id := by
        simpa [iterParent] using hrest
      rcases Nat.exists_eq_succ_of_ne_zero (by omega : fuel ≠ 0) with ⟨f, rfl⟩
      rw [getDescendantsF]
      refine List.mem_flatMap.2 ⟨d, ?_, List.mem_cons.2 (Or.inl rfl)⟩
      rw [childrenOf, List.mem_filter]
      exact ⟨hd, by simp [hdpar, hpc]⟩
    · have hpdef : ∃ q, parentOf cats p = some q := by
        rcases Nat.exists_eq_succ_of_ne_zero (by omega : k' ≠ 0) with ⟨k'', rfl⟩
        revert hrest
        show (match parentOf cats p with
          | some q => iterParent cats k'' q
          | none => none) = some c.id → _
        rcases hq : parentOf cats p with _ | q
        · intro hh; cases hh
        · intro hh; exact ⟨q, rfl⟩
      rcases hpdef with ⟨q, hq⟩
      rcases parentOf_some hq with ⟨r, hr, hrid, -⟩
      rcases Nat.exists_eq_succ_of_ne_zero
        (by omega : fuel ≠ 0) with ⟨f, rfl⟩
      have hrdesc : r ∈ getDescendantsF cats f c := by
        refine ihk k' (by omega) hk' c r hr ?_ f (by omega)
        rw [hrid]
        exact hrest
      refine getDescendantsF_child_lift f c r d hrdesc ?_
      rw [childrenOf, List.mem_filter]
      exact ⟨hd, by simp [hdpar, hrid]⟩

/-- Congruence for flatMap over the same list. -/
theorem flatMap_congr_mem {α β : Type} {l : List α} {f g : α → List β}
    (h : ∀ a ∈ l, f a = g a) : l.flatMap f = l.flatMap g := by
  induction l with
  | nil => rfl
  | cons a rest ih =>
    simp only [List.flatMap_cons]
    rw [h a (List.mem_cons_self a rest), ih (fun b hb => h b (List.mem_cons_of_mem a hb))]

/-- Fuel irrelevance above the chain bound: once every inbound chain to the
category is shorter than the budget, any two sufficient fuels agree. -/
theorem getDescendantsF_stable {cats : List ServiceCategory}
    (hnd : NodupIds cats) :
    ∀ (n : Nat) (c : ServiceCategory),
      (∀ d ∈ cats, ∀ k, 0 < k → iterParent cats k d.id = some c.id → k ≤ n) →
      ∀ f g, n ≤ f → n ≤ g →
        getDescendantsF cats f c = getDescendantsF cats g c := by
  intro n
  induction n with
  | zero =>
    intro c hbound f g _ _
    have hchild : childrenOf cats c = [] := by
      rw [childrenOf, List.filter_eq_nil_iff]
      intro r hr hpr
      have hrp : r.parent = some c.id := by simpa using hpr
      have h1 : iterParent cats 1 r.id = some c.id := by
        show (match parentOf cats r.id with
          | some p => iterParent cats 0 p
          | none => none) = some c.id
        rw [parentOf_eq hnd hr, hrp]
        rfl
      have := hbound r hr 1 (by omega) h1
      omega
    rw [getDescendantsF_nil_of_no_children hchild,
      getDescendantsF_nil_of_no_children hchild]
  | succ n ih =>
    intro c hbound f g hf hg
    rcases Nat.exists_eq_succ_of_ne_zero (by omega : f ≠ 0) with ⟨f', rfl⟩
    rcases Nat.exists_eq_succ_of_ne_zero (by omega : g ≠ 0) with ⟨g', rfl⟩
    rw [getDescendantsF, getDescendantsF]
    refine flatMap_congr_mem ?_
    intro ch hch
    have hchmem : ch ∈ cats := List.mem_of_mem_filter hch
    have hchpar : ch.parent = some c.id := by
      have := List.of_mem_filter hch
      simpa using this
    have hbound' : ∀ d ∈ cats, ∀ k, 0 < k →
        iterParent cats k d.id = some ch.id → k ≤ n := by
      intro d hd k hk hik
      have hstep : iterParent cats (k + 1) d.id = some c.id := by
        rw [iterParent_succ_back, hik]
        simp only [Option.some_bind]
        rw [parentOf_eq hnd hchmem, hchpar]
      have := hbound d hd (k + 1) (by omega) hstep
      omega
    rw [ih ch hbound' f' g' (by omega) (by omega)]

/-- Sufficient condition for acyclicity: every stored parent id is smaller
than the row's own id. -/
theorem acyclic_of_parent_lt {cats : List ServiceCategory}
    (h : ∀ r ∈ cats, ∀ p, r.parent = some p → p < r.id) : Acyclic cats := by
  have hstep : ∀ i p, parentOf cats i = some p → p < i := by
    intro i p hp
    rcases parentOf_some hp with ⟨r, hr, hrid, hrp⟩
    have := h r hr p hrp
    omega
  have hmono : ∀ k i j, iterParent cats k i = some j →
      (k = 0 ∧ j = i) ∨ j < i := by
    intro k
    induction k with
    | zero =>
      intro i j hj
      left
      constructor
      · rfl
      · simpa [iterParent] using hj.symm
    | succ k ih =>
      intro i j hj
      have : ∃ p, parentOf cats i = some p ∧ iterParent cats k p = some j := by
        revert hj
        show (match parentOf cats i with
          | some p => iterParent cats k p
          | none => none) = some j → _
        rcases hp : parentOf cats i with _ | p
        · intro hh; cases hh
        · intro hh; exact ⟨p, rfl, hh⟩
      rcases this with ⟨p, hp, hrest⟩
      have hpi : p < i := hstep i p hp
      rcases ih p j hrest with ⟨-, rfl⟩ | hlt
      · right; exact hpi
      · right; omega
  intro i k hk hcycle
  rcases hmono k i i hcycle with ⟨h0, -⟩ | hlt
  · omega
  · omega

/-- Parent map of a by-id row replacement, away from the replaced id. -/
theorem parentOf_replace_ne {cats : List ServiceCategory}
    {c c' : ServiceCategory} (hid : c'.id = c.id) {x : Nat} (hx : x ≠ c.id) :
    parentOf (cats.map (fun r => if r.id = c.id then c' else r)) x =
      parentOf cats x := by
  induction cats with
  | nil => rfl
  | cons a rest ih =>
    simp only [List.map_cons]
    by_cases ha : a.id = c.id
    · rw [parentOf, parentOf]
      simp only [ha, if_true]
      rw [List.find?_cons, List.find?_cons]
      have h1 : (c'.id == x) = false := by
        simp [hid, ha, Ne.symm hx]
      have h2 : (a.id == x) = false := by
        simp [ha, Ne.symm hx]
      rw [h1, h2]
      rw [parentOf, parentOf] at ih
      exact ih
    · rw [parentOf, parentOf]
      simp only [ha, if_false]
      rw [List.find?_cons, List.find?_cons]
      rcases hax : (a.id == x) with _ | _
      · rw [parentOf, parentOf] at ih
        exact ih
      · rfl

/-- Parent map of a by-id row replacement at the replaced id. -/
theorem parentOf_replace_self {cats : List ServiceCategory}
    {c c' : ServiceCategory} (hid : c'.id = c.id) (hc : c ∈ cats) :
    parentOf (cats.map (fun r => if r.id = c.id then c' else r)) c.id =
      c'.parent := by
  induction cats with
  | nil => cases hc
  | cons a rest ih =>
    simp only [List.map_cons]
    by_cases ha : a.id = c.id
    · rw [parentOf]
      simp only [ha, if_true]
      rw [List.find?_cons]
      have : (c'.id == c.id) = true := by simp [hid]
      rw [this]
    · rw [parentOf]
      simp only [ha, if_false]
      rw [List.find?_cons]
      have : (a.id == c.id) = false := by simp [ha]
      rw [this]
      rcases List.mem_cons.1 hc with rfl | hc'
      · exact absurd rfl ha
      · rw [parentOf] at ih
        exact ih hc'

/-- Walk transfer to a graph whose defined parent steps agree. -/
theorem iterParent_transfer {cats cats' : List ServiceCategory}
    (hag : ∀ x p, parentOf cats' x = some p → parentOf cats x = some p) :
    ∀ k i j, iterParent cats' k i = some j → iterParent cats k i = some j := by
  intro k
  induction k with
  | zero => intro i j h; simpa [iterParent] using h
  | succ k ih =>
    intro i j h
    have : ∃ p, parentOf cats' i = some p ∧ iterParent cats' k p = some j := by
      revert h
      show (match parentOf cats' i with
        | some p => iterParent cats' k p
        | none => none) = some j → _
      rcases hp : parentOf cats' i with _ | p
      · intro hh; cases hh
      · intro hh; exact ⟨p, rfl, hh⟩
    rcases this with ⟨p, hp, hrest⟩
    show (match parentOf cats i with
      | some q => iterParent cats k q
      | none => none) = some j
    rw [hag i p hp]
    exact ih p j hrest

/-- Walk transfer when the two graphs agree except at one id never visited
before the end of the walk. -/
theorem iterParent_transfer_avoid {cats cats' : List ServiceCategory}
    {cid : Nat}
    (hag : ∀ x, x ≠ cid → parentOf cats' x = parentOf cats x) :
    ∀ k i, (∀ t, t < k → iterParent cats' t i ≠ some cid) →
      iterParent cats' k i = iterParent cats k i := by
  intro k
  induction k with
  | zero => intro i _; rfl
  | succ k ih =>
    intro i havoid
    have hi : i ≠ cid := by
      have := havoid 0 (by omega)
      simpa [iterParent] using this
    show (match parentOf cats' i with
      | some p => iterParent cats' k p
      | none => none) =
      (match parentOf cats i with
      | some p => iterParent cats k p
      | none => none)
    rw [← hag i hi]
    rcases hp : parentOf cats' i with _ | p
    · rfl
    · refine ih p ?_
      intro t ht
      have := havoid (t + 1) (by omega)
      show iterParent cats' t p ≠ some cid
      intro hcon
      refine this ?_
      show (match parentOf cats' i with
        | some q => iterParent cats' t q
        | none => none) = some cid
      rw [hp]
      exact hcon

/-- Acyclicity is preserved by repointing one row at a target that is
neither the row itself nor one of the row's proper descendants. -/
theorem acyclic_update {cats cats' : List ServiceCategory} {cid : Nat}
    {np : Option Nat} (hac : Acyclic cats)
    (hup : ∀ x, parentOf cats' x = if x = cid then np else parentOf cats x)
    (hnp : ∀ p, np = some p → p ≠ cid ∧
      ¬∃ k, 0 < k ∧ iterParent cats k p = some cid) :
    Acyclic cats' := by
  classical
  have hag : ∀ x, x ≠ cid → parentOf cats' x = parentOf cats x := by
    intro x hx
    rw [hup x, if_neg hx]
  intro i K hK hcycle
  by_cases hvisit : ∃ t, t < K ∧ iterParent cats' t i = some cid
  · rcases hvisit with ⟨t, htK, hti⟩
    have hKt : iterParent cats' (K - t) cid = some i := by
      have hsplit := iterParent_add cats' t (K - t) i
      rw [show t + (K - t) = K by omega, hcycle, hti] at hsplit
      simpa using hsplit.symm
    have hbase : iterParent cats' ((K - t) + t) cid = some cid := by
      rw [iterParent_add cats', hKt]
      simpa using hti
    have hKpos : 0 < (K - t) + t := by omega
    -- from the cycle based at cid, the first step goes to np
    rcases Nat.exists_eq_succ_of_ne_zero (by omega : (K - t) + t ≠ 0) with ⟨M, hM⟩
    rw [hM] at hbase
    have hstep : ∃ p, parentOf cats' cid = some p ∧
        iterParent cats' M p = some cid := by
      revert hbase
      show (match parentOf cats' cid with
        | some p => iterParent cats' M p
        | none => none) = some cid → _
      rcases hp : parentOf cats' cid with _ | p
      · intro hh; cases hh
      · intro hh; exact ⟨p, rfl, hh⟩
    rcases hstep with ⟨p, hp, hrest⟩
    have hpnp : np = some p := by
      have := hup cid
      rw [if_pos rfl] at this
      rw [← this, hp]
    rcases hnp p hpnp with ⟨hpne, hfree⟩
    -- take the first return to cid along the walk from p
    have hexT : ∃ T, iterParent cats' T p = some cid := ⟨M, hrest⟩
    have hT := Nat.find_spec hexT
    have hTmin := fun t (ht : t < Nat.find hexT) => Nat.find_min hexT ht
    have hTtrans : iterParent cats (Nat.find hexT) p = some cid := by
      rw [← iterParent_transfer_avoid hag (Nat.find hexT) p hTmin]
      exact hT
    rcases Nat.eq_zero_or_pos (Nat.find hexT) with hT0 | hTpos
    · rw [hT0] at hTtrans
      have : p = cid := by simpa [iterParent] using hTtrans
      exact hpne this
    · exact hfree ⟨Nat.find hexT, hTpos, hTtrans⟩
  · push_neg at hvisit
    have := iterParent_transfer_avoid hag K i (fun t ht => hvisit t ht)
    rw [this] at hcycle
    exact hac i K hK hcycle

/-- C9 counterexample: get_descendants traverses children regardless of
is_active — the inactive child is returned, refuting the restriction to
active descendants. -/
theorem get_descendants_inactive_counterexample :
    get_descendants exC9Cats exC9Parent = [exC9Child] ∧
    exC9Child.is_active = false := by
  exact ⟨by rfl, by decide⟩

/-- C9 amended: on acyclic data with unique ids, get_descendants is the
pre-order traversal of all descendants (active or not): it satisfies the
pre-order unfolding, never contains the category itself, is unchanged by any
fuel of at least one level per row (the source recursion terminates), and
lists exactly the rows that reach the category by parent steps. -/
theorem get_descendants_preorder_spec (cats : List ServiceCategory)
    (c : ServiceCategory) (hac : Acyclic cats) (hnd : NodupIds cats) :
    get_descendants cats c =
      (childrenOf cats c).flatMap (fun ch => ch :: get_descendants cats ch) ∧
    c ∉ get_descendants cats c ∧
    (∀ f, cats.length ≤ f → getDescendantsF cats f c = get_descendants cats c) ∧
    (∀ d, d ∈ get_descendants cats c ↔
      d ∈ cats ∧ ∃ k, 0 < k ∧ iterParent cats k d.id = some c.id) := by
  have hbound : ∀ (c0 : ServiceCategory), ∀ d ∈ cats, ∀ k, 0 < k →
      iterParent cats k d.id = some c0.id → k ≤ cats.length := by
    intro c0 d _ k _ h
    exact iterParent_le_length hac hnd h
  have hstable : ∀ (c0 : ServiceCategory) f, cats.length ≤ f →
      getDescendantsF cats f c0 = get_descendants cats c0 := by
    intro c0 f hf
    exact getDescendantsF_stable hnd cats.length c0 (hbound c0) f cats.length hf
      (le_refl _)
  refine ⟨?_, ?_, hstable c, ?_⟩
  · rcases hlen : cats.length with _ | l
    · have hcats : cats = [] := List.length_eq_zero.1 hlen
      rw [get_descendants, hcats]
      simp [childrenOf, getDescendantsF]
    · rw [get_descendants, hlen, getDescendantsF]
      refine flatMap_congr_mem ?_
      intro ch hch
      have hchmem : ch ∈ cats := List.mem_of_mem_filter hch
      have hchpar : ch.parent = some c.id := by
        have := List.of_mem_filter hch
        simpa using this
      have hboundch : ∀ d ∈ cats, ∀ k, 0 < k →
          iterParent cats k d.id = some ch.id → k ≤ l := by
        intro d hd k hk hik
        have hstep : iterParent cats (k + 1) d.id = some c.id := by
          rw [iterParent_succ_back, hik]
          simp only [Option.some_bind]
          rw [parentOf_eq hnd hchmem, hchpar]
        have := hbound c d hd (k + 1) (by omega) hstep
        omega
      show ch :: getDescendantsF cats l ch = ch :: get_descendants cats ch
      rw [get_descendants, hlen]
      exact congrArg (fun t => ch :: t)
        (getDescendantsF_stable hnd l ch hboundch l (l + 1) (le_refl _) (by omega))
  · intro hmem
    rcases (getDescendantsF_sound hnd cats.length c c hmem).2 with ⟨k, hk, hcycle⟩
    exact hac c.id k hk hcycle
  · intro d
    constructor
    · intro hmem
      exact getDescendantsF_sound hnd cats.length c d hmem
    · rintro ⟨hd, k, hk, hiter⟩
      exact getDescendantsF_complete hnd k hk c d hd hiter cats.length
        (iterParent_le_length hac hnd hiter)

/-- Witness for get_descendants_preorder_spec: the two-row table (parent ids
strictly below row ids, hence acyclic). -/
theorem get_descendants_preorder_spec_witness :
    (Acyclic exC9Cats ∧ NodupIds exC9Cats) ∧
    get_descendants exC9Cats exC9Parent =
      (childrenOf exC9Cats exC9Parent).flatMap
        (fun ch => ch :: get_descendants exC9Cats ch) ∧
    exC9Parent ∉ get_descendants exC9Cats exC9Parent := by
  have hac : Acyclic exC9Cats := by
    refine acyclic_of_parent_lt ?_
    intro r hr p hp
    rcases List.mem_cons.1 hr with rfl | hr'
    · cases hp
    · rcases List.mem_cons.1 hr' with rfl | hr''
      · have : p = 1 := by
          have := hp
          simp [exC9Child] at this
          omega
        simp [exC9Child, this]
      · cases hr''
  have hnd : NodupIds exC9Cats := by unfold NodupIds; decide
  have h := get_descendants_preorder_spec exC9Cats exC9Parent hac hnd
  exact ⟨⟨hac, hnd⟩, h.1, h.2.1⟩

/-- C3: update_category rejects a parent equal to the category itself or to
any row that reaches the category by parent steps (one of its descendants),
returning the source's error with no write; and a successful update leaves
the category graph acyclic. -/
theorem update_category_cycle_guard :
    (∀ (slugify : String → String) (db : DB) (c : ServiceCategory)
        (p : CategoryPatch),
      p.parent_id = some (some c.id) → c.id ≠ 0 → c ∈ db.categories →
      update_category slugify db c p = .error "Cannot set descendant as parent") ∧
    (∀ (slugify : String → String) (db : DB) (c : ServiceCategory)
        (p : CategoryPatch) (r : ServiceCategory) (pid k : Nat),
      Acyclic db.categories → NodupIds db.categories → c ∈ db.categories →
      p.parent_id = some (some pid) → pid ≠ 0 → r ∈ db.categories →
      r.id = pid → 0 < k → iterParent db.categories k pid = some c.id →
      update_category slugify db c p = .error "Cannot set descendant as parent") ∧
    (∀ (slugify : String → String) (db : DB) (c : ServiceCategory)
        (p : CategoryPatch) (db' : DB),
      Acyclic db.categories → NodupIds db.categories → c ∈ db.categories →
      update_category slugify db c p = .ok db' →
      Acyclic db'.categories) := by
  refine ⟨?_, ?_, ?_⟩
  · intro slugify db c p hp hnz hc
    have hres : resolvePatchParent db.categories c p.parent_id =
        .error "Cannot set descendant as parent" := by
      rw [hp, resolvePatchParent]
      simp only [hnz, if_false]
      rcases hfind : db.categories.find? (fun r => r.id == c.id) with _ | parent
      · exfalso
        have := List.find?_eq_none.1 hfind c hc
        simp at this
      · rw [hfind]
        have hpid : parent.id = c.id := by
          simpa using List.find?_some hfind
        simp [hpid]
    rw [update_category, hres]
  · intro slugify db c p r pid k hac hnd hc hp hnz hr hrid hk hiter
    have hfind : db.categories.find? (fun x => x.id == pid) = some r := by
      rw [← hrid]
      exact find?_id_eq hnd hr
    have hres : resolvePatchParent db.categories c p.parent_id =
        .error "Cannot set descendant as parent" := by
      rw [hp, resolvePatchParent]
      simp only [hnz, if_false]
      rw [hfind]
      by_cases hpc : (r.id == c.id) = true
      · simp [hpc]
      · have hdesc : r ∈ get_descendants db.categories c := by
          refine getDescendantsF_complete hnd k hk c r hr ?_ db.categories.length
            (iterParent_le_length hac hnd hiter)
          rw [hrid]
          exact hiter
        have hany : (get_descendants db.categories c).any
            (fun d => d.id == r.id) = true :=
          List.any_eq_true.2 ⟨r, hdesc, by simp⟩
        simp only [hpc, Bool.false_or]
        rw [hany]
        simp
    rw [update_category, hres]
  · intro slugify db c p db' hac hnd hc hok
    rcases hres : resolvePatchParent db.categories c p.parent_id with e | np
    · rw [update_category, hres] at hok
      cases hok
    · rw [update_category, hres] at hok
      simp only [Except.ok.injEq] at hok
      have hcats' : db'.categories =
          db.categories.map (fun r => if r.id = c.id then
            { c with
              parent := np
              name := p.name.getD c.name
              slug :=
                match p.name with
                | some n =>
                  if n ≠ c.name then
                    generateUniqueSlug
                      ((db.categories.filter (fun r => r.id ≠ c.id)).map
                        (fun r => r.slug))
                      (slugify n)
                  else c.slug
                | none => c.slug
              description := p.description.getD c.description
              icon := p.icon.getD c.icon
              color := p.color.getD c.color
              order := p.order.getD c.order
              is_active := p.is_active.getD c.is_active } else r) := by
        rw [← hok]
      have hup : ∀ x, parentOf db'.categories x =
          if x = c.id then np else parentOf db.categories x := by
        intro x
        rw [hcats']
        by_cases hx : x = c.id
        · rw [if_pos hx, hx]
          refine parentOf_replace_self ?_ hc
          rfl
        · rw [if_neg hx]
          refine parentOf_replace_ne ?_ hx
          rfl
      -- analyze how np was produced
      rcases hpp : p.parent_id with _ | pp
      · rw [hpp, resolvePatchParent] at hres
        simp only [Except.ok.injEq] at hres
        refine fun i k hk hcycle => hac i k hk ?_
        refine iterParent_transfer ?_ k i i hcycle
        intro x q hq
        rw [hup x] at hq
        by_cases hx : x = c.id
        · rw [if_pos hx] at hq
          rw [hx, parentOf_eq hnd hc, hres]
          exact hq
        · rwa [if_neg hx] at hq
      · rcases hppv : pp with _ | pid
        · rw [hpp, hppv, resolvePatchParent] at hres
          simp only [Except.ok.injEq] at hres
          refine fun i k hk hcycle => hac i k hk ?_
          refine iterParent_transfer ?_ k i i hcycle
          intro x q hq
          rw [hup x] at hq
          by_cases hx : x = c.id
          · rw [if_pos hx, ← hres] at hq
            cases hq
          · rwa [if_neg hx] at hq
        · rw [hpp, hppv, resolvePatchParent] at hres
          by_cases hnz : pid = 0
          · simp only [hnz, if_true] at hres
            simp only [Except.ok.injEq] at hres
            refine fun i k hk hcycle => hac i k hk ?_
            refine iterParent_transfer ?_ k i i hcycle
            intro x q hq
            rw [hup x] at hq
            by_cases hx : x = c.id
            · rw [if_pos hx, ← hres] at hq
              cases hq
            · rwa [if_neg hx] at hq
          · simp only [hnz, if_false] at hres
            rcases hfind : db.categories.find? (fun r => r.id == pid) with _ | parent
            · rw [hfind] at hres
              cases hres
            · rw [hfind] at hres
              dsimp only at hres
              by_cases hcheck : (parent.id == c.id ||
                  (get_descendants db.categories c).any
                    (fun d => d.id == parent.id)) = true
              · rw [if_pos hcheck] at hres
                cases hres
              · rw [if_neg hcheck] at hres
                simp only [Except.ok.injEq] at hres
                have hchecks := Bool.or_eq_false_iff.1
                  (Bool.eq_false_iff.2 hcheck)
                refine acyclic_update hac hup ?_
                intro q hq
                rw [← hres] at hq
                have hq' : parent.id = q := by
                  injection hq
                subst hq'
                constructor
                · intro he
                  have : (parent.id == c.id) = true := by simp [he]
                  rw [this] at hchecks
                  cases hchecks.1
                · rintro ⟨k, hk, hiter⟩
                  have hparentmem : parent ∈ db.categories :=
                    List.mem_of_find?_eq_some hfind
                  have hdesc : parent ∈ get_descendants db.categories c :=
                    getDescendantsF_complete hnd k hk c parent hparentmem hiter
                      db.categories.length (iterParent_le_length hac hnd hiter)
                  have hany : (get_descendants db.categories c).any
                      (fun d => d.id == parent.id) = true :=
                    List.any_eq_true.2 ⟨parent, hdesc, by simp⟩
                  rw [hany] at hchecks
                  cases hchecks.2

/-- Witness for update_category_cycle_guard: setting a category as its own
parent is rejected. -/
theorem update_category_cycle_guard_witness :
    ({ parent_id := some (some exC3Cat.id) } : CategoryPatch).parent_id =
      some (some exC3Cat.id) ∧
    exC3Cat.id ≠ 0 ∧ exC3Cat ∈ exC3DB.categories ∧
    update_category idSlugify exC3DB exC3Cat
      { parent_id := some (some exC3Cat.id) } =
      .error "Cannot set descendant as parent" :=
  ⟨rfl, by decide, by decide,
    update_category_cycle_guard.1 idSlugify exC3DB exC3Cat
      { parent_id := some (some exC3Cat.id) } rfl (by decide) (by decide)⟩

end ServicesModule
